import Mathlib

/-!
Verification of the `asyncio_stripe` client core (`asyncio_stripe/stripe.py`).

The development shallowly embeds the request-building core of the library:

* JSON-like structured values (`JValue`) standing for the Python values that
  appear as request parameters and response bodies;
* Python `dict` operations on insertion-ordered association lists
  (`dlookup` / `dset` / `ddel` model `d.get`, `d[k] = v`, `del d[k]`);
* the parameter encoder of `Client._req` (dictionary flattening, lines 90-94,
  and boolean stringification, lines 96-100 of `stripe.py`);
* the response classifier of `Client._req` (lines 114-125): `StripeError`
  construction, the DELETE special case and the `object`-discriminator check;
* `convert_json_response` (lines 417-422), the list-envelope unwrapping.

Fallible Python code (statements that can raise `KeyError`, `TypeError` or
`AttributeError`) is modelled with `Option` / `Except`: a `none` (resp.
`.error`) result marks an uncaught Python exception that is none of the
library's own typed errors.
-/

/-- A Python value as it occurs in request parameters and parsed JSON
response bodies: `None`, `bool`, `int`, `str`, `list`, `dict`. -/
inductive JValue where
  | vnull
  | vbool (b : Bool)
  | vint (n : Int)
  | vstr (s : String)
  | varr (elems : List JValue)
  | vobj (fields : List (String × JValue))

namespace JValue

/-- Models `isinstance(v, dict)`. -/
def isObjB : JValue → Bool
  | .vobj _ => true
  | _ => false

/-- Models `isinstance(v, list)`. -/
def isArrB : JValue → Bool
  | .varr _ => true
  | _ => false

/-- Models `isinstance(v, str)`. -/
def isStrB : JValue → Bool
  | .vstr _ => true
  | _ => false

/-- Models `isinstance(v, bool)`. -/
def isBoolB : JValue → Bool
  | .vbool _ => true
  | _ => false

/-- A non-boolean scalar: a string or a number. -/
def isScalarNB : JValue → Bool
  | .vstr _ => true
  | .vint _ => true
  | _ => false

/-- A scalar: a string, a number or a boolean. -/
def isScalarB : JValue → Bool
  | .vstr _ => true
  | .vint _ => true
  | .vbool _ => true
  | _ => false

/-- The entries of a mapping value, and `[]` for every other value. -/
def objFields : JValue → List (String × JValue)
  | .vobj fs => fs
  | _ => []

/-- Python truthiness (`bool(v)`) for the embedded values. -/
def pyTruthy : JValue → Bool
  | .vnull => false
  | .vbool b => b
  | .vint n => !(n == 0)
  | .vstr s => !(s == "")
  | .varr xs => !xs.isEmpty
  | .vobj fs => !fs.isEmpty

end JValue

/-- Models `d.get(q)` on a Python dict (first binding of the key; a Python
dict holds at most one binding per key). -/
def dlookup : List (String × JValue) → String → Option JValue
  | [], _ => none
  | kv :: t, q => if kv.1 = q then some kv.2 else dlookup t q

/-- Models `d[k] = v` on a Python dict: replace the value in place if the key
is bound, otherwise append the new binding at the end (insertion order). -/
def dset : List (String × JValue) → String → JValue → List (String × JValue)
  | [], k, v => [(k, v)]
  | kv :: t, k, v => if kv.1 = k then (k, v) :: t else kv :: dset t k v

/-- Models `del d[k]` on a Python dict (removes the binding of `k`; on a
dict, which binds each key at most once, removing all bindings of `k` is
the same thing). -/
def ddel : List (String × JValue) → String → List (String × JValue)
  | [], _ => []
  | kv :: t, k => if kv.1 = k then ddel t k else kv :: ddel t k

/-- The key list of a dict, in insertion order. -/
def keysOf (d : List (String × JValue)) : List String := d.map Prod.fst

/-- Models `q in d` for a Python dict. -/
def hasKey (d : List (String × JValue)) (q : String) : Bool :=
  (dlookup d q).isSome

/-- The key `'%s[%s]' % (key, subkey)` synthesized by the parameter
flattening loop of `Client._req`. -/
def syn (key subkey : String) : String := key ++ "[" ++ subkey ++ "]"

/-- Models `s.upper()`. -/
def pyUpper (s : String) : String := String.mk (s.data.map Char.toUpper)

/-- Models `needle.isPrefix(hay)` at the character-list level: used to state
substring facts about the human-readable error summaries. -/
def startsWithL : List Char → List Char → Bool
  | _, [] => true
  | [], _ :: _ => false
  | c :: t, n :: m => c = n && startsWithL t m

/-- Substring test on character lists. -/
def hasSubL : List Char → List Char → Bool
  | [], needle => needle.isEmpty
  | c :: t, needle => startsWithL (c :: t) needle || hasSubL t needle

/-- Models Python's `needle in hay` for strings (substring containment). -/
def strHasSub (hay needle : String) : Bool := hasSubL hay.data needle.data

/-- Lookup of a value inside a Python dict needed for the recursion measure
of `convert_json_response`: a looked-up value is smaller than the dict. -/
theorem dlookup_sizeOf : ∀ (fs : List (String × JValue)) (k : String) (v : JValue),
    dlookup fs k = some v → sizeOf v < sizeOf (JValue.vobj fs) := by
  intro fs k v h
  induction fs with
  | nil => simp [dlookup] at h
  | cons kv t ih =>
    obtain ⟨k', v'⟩ := kv
    simp only [dlookup] at h
    split at h
    · cases h
      simp
      omega
    · have := ih h
      simp at this ⊢
      omega

theorem dlookup_sizeOf_arr {fs : List (String × JValue)} {k : String} {ds : List JValue}
    (h : dlookup fs k = some (JValue.varr ds)) : sizeOf ds < sizeOf (JValue.vobj fs) := by
  have := dlookup_sizeOf fs k _ h
  simp at this ⊢
  omega

mutual

/-- Models Python `repr(v)` for the embedded values (string escaping inside
`repr` of a `str` is not modelled; the inputs considered here need none). -/
def pyRepr : JValue → String
  | .vnull => "None"
  | .vbool b => cond b "True" "False"
  | .vint n => toString n
  | .vstr s => "'" ++ s ++ "'"
  | .varr xs => "[" ++ pyReprList xs ++ "]"
  | .vobj fs => "\x7b" ++ pyReprFields fs ++ "\x7d"
termination_by v => sizeOf v

/-- Comma-separated `repr`s of the elements of a Python list. -/
def pyReprList : List JValue → String
  | [] => ""
  | [x] => pyRepr x
  | x :: y :: t => pyRepr x ++ ", " ++ pyReprList (y :: t)
termination_by l => sizeOf l
decreasing_by all_goals (first | (simp <;> omega) | omega)

/-- Comma-separated `'key': repr(value)` renderings of dict entries. -/
def pyReprFields : List (String × JValue) → String
  | [] => ""
  | [(k, v)] => "'" ++ k ++ "': " ++ pyRepr v
  | (k, v) :: kw :: t => "'" ++ k ++ "': " ++ pyRepr v ++ ", " ++ pyReprFields (kw :: t)
termination_by l => sizeOf l
decreasing_by all_goals (first | (simp <;> omega) | omega)

end

/-- Models Python `str(v)` (`'%s' % v`): identity on strings, `repr`-like on
everything else. -/
def pyStr : JValue → String
  | .vstr s => s
  | v => pyRepr v

/-! ## Parameter encoder (`Client._req`, lines 87-100)

The Python loop
```
for key in [k for k, v in params.items() if isinstance(v, dict)]:
    for subkey, v in params[key].items():
        params['%s[%s]' % (key, subkey)] = v
    del params[key]
```
first snapshots the keys bound to dictionaries, then processes them one by
one, mutating `params` in place.  If a synthesized key overwrites a later
snapshot key, `params[key].items()` finds a non-dict and raises
`AttributeError`; `flatten_one` returns `none` there. -/

/-- The inner loop `for subkey, v in params[key].items(): params[...] = v`:
insert one synthesized binding per entry of the nested dict. -/
def synFold (key : String) (inner : List (String × JValue))
    (p : List (String × JValue)) : List (String × JValue) :=
  inner.foldl (fun acc kv => dset acc (syn key kv.1) kv.2) p

/-- One iteration of the flattening loop for snapshot key `key`. -/
def flatten_one (p : List (String × JValue)) (key : String) :
    Option (List (String × JValue)) :=
  match dlookup p key with
  | some (JValue.vobj inner) => some (ddel (synFold key inner p) key)
  | _ => none

/-- The snapshot `[k for k, v in params.items() if isinstance(v, dict)]`. -/
def objKeys (p : List (String × JValue)) : List String :=
  (p.filter fun kv => kv.2.isObjB).map Prod.fst

/-- The whole flattening loop. -/
def flatten_params (p : List (String × JValue)) : Option (List (String × JValue)) :=
  List.foldlM flatten_one p (objKeys p)

/-- Boolean stringification of one value: `str(v).lower()` is substituted
for `v` exactly when `isinstance(v, bool)`. -/
def boolFix : JValue → JValue
  | .vbool b => .vstr (cond b "true" "false")
  | v => v

/-- Models `params.update({k: str(v).lower() for k, v in params.items() if
isinstance(v, bool)})`: every boolean value is replaced in place. -/
def bools_to_strings (p : List (String × JValue)) : List (String × JValue) :=
  p.map fun kv => (kv.1, boolFix kv.2)

/-- The full parameter encoding performed by `Client._req` on the `params`
dict (flattening, then boolean conversion).  In the source both steps
mutate the caller's dict object; the returned dict is the post-state of
that object. -/
def encode_params (p : List (String × JValue)) : Option (List (String × JValue)) :=
  (flatten_params p).map bools_to_strings

/-! ## Error construction (`StripeError.__init__`, lines 8-41) -/

/-- The attribute state of a `StripeError` instance: the six optional error
fields (initialized to `None`, possibly re-assigned from the body's
`error` mapping) and the HTTP status code. -/
structure StripeError where
  type : Option JValue
  charge : Option JValue
  message : Option JValue
  code : Option JValue
  decline_code : Option JValue
  param : Option JValue
  http_code : Nat

/-- Models `getattr(e, key, None)` on a `StripeError` instance: the named
attribute's value, or `None` when the instance has no such attribute.
The instance's attributes are exactly the seven assigned in `__init__`;
in particular there is no attribute named `'decline'`. -/
def getattr_err (e : StripeError) (key : String) : Option JValue :=
  if key = "type" then e.type
  else if key = "charge" then e.charge
  else if key = "message" then e.message
  else if key = "code" then e.code
  else if key = "decline_code" then e.decline_code
  else if key = "param" then e.param
  else if key = "http_code" then some (JValue.vint e.http_code)
  else none

/-- Models the local helper `addstr(key, fmt)`: render `fmt % v` when the
attribute named `key` exists, is not `None` and is truthy, else `''`. -/
def addstr (e : StripeError) (key : String) (fmt : JValue → String) : String :=
  match getattr_err e key with
  | some v => if v.pyTruthy then fmt v else ""
  | none => ""

/-- A `StripeError` whose six error fields are still `None`. -/
def blank_error (status : Nat) : StripeError :=
  { type := none, charge := none, message := none, code := none,
    decline_code := none, param := none, http_code := status }

/-- A `StripeError` whose fields are filled from the body's `error` mapping,
each defaulting to the empty string (`err.get('type', '')`, ...). -/
def filled_error (status : Nat) (efields : List (String × JValue)) : StripeError :=
  { type := some ((dlookup efields "type").getD (.vstr ""))
    charge := some ((dlookup efields "charge").getD (.vstr ""))
    message := some ((dlookup efields "message").getD (.vstr ""))
    code := some ((dlookup efields "code").getD (.vstr ""))
    decline_code := some ((dlookup efields "decline_code").getD (.vstr ""))
    param := some ((dlookup efields "param").getD (.vstr ""))
    http_code := status }

/-- A response body: parsed JSON when the content type says JSON, opaque
bytes otherwise. -/
inductive Body where
  | json (v : JValue)
  | raw (bytes : List Nat)

/-- Models the attribute assignments of `StripeError.__init__(resp, body)`.
`err = body.get('error', {})` is only inspected when `body` is a dict; when
`err` is truthy the six fields are read with `err.get(..., '')`, which
raises `AttributeError` (modelled by `none`) if `err` is not a dict. -/
def mk_stripe_error (status : Nat) (body : Body) : Option StripeError :=
  match body with
  | .json (.vobj fields) =>
    match (dlookup fields "error").getD (JValue.vobj []) with
    | .vobj efields =>
      if (JValue.vobj efields).pyTruthy then some (filled_error status efields)
      else some (blank_error status)
    | errv => if errv.pyTruthy then none else some (blank_error status)
  | _ => some (blank_error status)

/-- The human-readable summary string passed to `super().__init__` — note
the `addstr('decline', ...)` call, which queries an attribute that is never
assigned. -/
def stripe_error_msg (status : Nat) (e : StripeError) : String :=
  toString status ++ ":"
    ++ addstr e "type" (fun v => " " ++ pyStr v ++ ":")
    ++ addstr e "charge" (fun v => " charge: " ++ pyStr v)
    ++ addstr e "message" (fun v => " message: \"" ++ pyStr v ++ "\"")
    ++ addstr e "code" (fun v => " code: " ++ pyStr v)
    ++ addstr e "decline" (fun v => " decline: " ++ pyStr v)
    ++ addstr e "param" (fun v => " param: " ++ pyStr v)

/-! ## Response normalization (`convert_json_response`, lines 417-422) -/

/-- The uncaught Python exceptions the response path can raise. -/
inductive PyErr where
  | keyError
  | typeError

/-- Models `resp.get('object', '') == 'list'` on the fields of a dict. -/
def isListTag (fields : List (String × JValue)) : Bool :=
  match dlookup fields "object" with
  | some (JValue.vstr s) => s == "list"
  | _ => false

mutual

/-- Models `convert_json_response`.  A list is normalized elementwise; a
dict tagged `object == 'list'` is replaced by the normalization of the
elements of its `data` entry (`KeyError` if absent; iterating a dict
yields its keys, iterating a string its characters, and iterating any
other non-list raises `TypeError`); everything else is returned as is. -/
def convert_json_response : JValue → Except PyErr JValue
  | .vnull => .ok .vnull
  | .vbool b => .ok (.vbool b)
  | .vint n => .ok (.vint n)
  | .vstr s => .ok (.vstr s)
  | .varr xs =>
    match convList xs with
    | .error e => .error e
    | .ok ys => .ok (.varr ys)
  | .vobj fields =>
    if isListTag fields then
      match h : dlookup fields "data" with
      | none => .error .keyError
      | some (.varr ds) =>
        match convList ds with
        | .error e => .error e
        | .ok ys => .ok (.varr ys)
      | some (.vobj inner) => .ok (.varr (inner.map fun kv => .vstr kv.1))
      | some (.vstr s) => .ok (.varr (s.data.map fun c => .vstr (String.mk [c])))
      | some _ => .error .typeError
    else .ok (.vobj fields)
termination_by v => sizeOf v
decreasing_by
  · simp
  · have := dlookup_sizeOf_arr h
    simp at this ⊢
    omega

/-- `[convert_json_response(r) for r in l]`: elementwise normalization, the
first exception propagating. -/
def convList : List JValue → Except PyErr (List JValue)
  | [] => .ok []
  | x :: t =>
    match convert_json_response x with
    | .error e => .error e
    | .ok y =>
      match convList t with
      | .error e => .error e
      | .ok yt => .ok (y :: yt)
termination_by l => sizeOf l
decreasing_by
  · simp
    omega
  · simp

end

/-! ## Response classification (`Client._req`, lines 109-125) -/

/-- The three typed errors `_req` raises itself. -/
inductive ReqError where
  | stripeErr (e : StripeError) (msg : String)
  | deletionErr (msg : String)
  | parseErr (msg : String)

/-- Models Python's `'object' in body`: key membership for a dict, element
equality for a list, substring test for a string; `in` on bytes or any
other non-container raises `TypeError` (`none`). -/
def pyContains (body : Body) (s : String) : Option Bool :=
  match body with
  | .json (.vobj fields) => some (hasKey fields s)
  | .json (.varr xs) =>
    some (xs.any fun x => match x with | .vstr t => t == s | _ => false)
  | .json (.vstr t) => some (strHasSub t s)
  | _ => none

/-- Models `'%s' % (body,)` for the parse-error message. -/
def bodyStr : Body → String
  | .json v => pyStr v
  | .raw bs => "b'" ++ String.mk (bs.map Char.ofNat) ++ "'"

/-- Models `body.get('id')` rendered through `'%s'`: `str(None)` is
`'None'` when the key is absent. -/
def idStr (fields : List (String × JValue)) : String :=
  match dlookup fields "id" with
  | some v => pyStr v
  | none => "None"

/-- Models lines 114-125 of `Client._req`: classification of a response
with the given method, status code and body.  The result is `none` when
the Python code raises an exception that is not one of the library's typed
errors (`AttributeError` from `StripeError.__init__`, `.get` on a
non-dict body, `in` on bytes, or a `KeyError`/`TypeError` escaping from
`convert_json_response`); otherwise it is the raised typed error or the
returned value (`none` inside `.ok` models `return` with no value).
Lines 117-120, the DELETE special case: -/
def handle_delete (body : Body) : Option (Except ReqError (Option JValue)) :=
  match body with
  | .json (.vobj fields) =>
    if ((dlookup fields "deleted").getD (JValue.vbool false)).pyTruthy then
      some (Except.ok none)
    else
      some (Except.error (ReqError.deletionErr ("Failed to delete " ++ idStr fields)))
  | _ => none

/-- Lines 122-125: the `object`-discriminator check and normalization of a
successful non-DELETE response. -/
def handle_ok (body : Body) : Option (Except ReqError (Option JValue)) :=
  match pyContains body "object" with
  | none => none
  | some false =>
    some (Except.error (ReqError.parseErr
      ("Stripe response missing \"object\": " ++ bodyStr body)))
  | some true =>
    match body with
    | .json v =>
      match convert_json_response v with
      | .ok w => some (Except.ok (some w))
      | .error _ => none
    | .raw _ => none

def handle_response (method : String) (status : Nat) (body : Body) :
    Option (Except ReqError (Option JValue)) :=
  if status ≠ 200 then
    (mk_stripe_error status body).map fun e =>
      Except.error (ReqError.stripeErr e (stripe_error_msg status e))
  else if pyUpper method = "DELETE" then
    handle_delete body
  else
    handle_ok body

/-! ## Specification-side normalization and well-formedness -/

/-- The elements of a dict's `data` entry when that entry is a sequence,
`[]` otherwise; used by the spec-side normalization below. -/
def dataElems (fields : List (String × JValue)) : List JValue :=
  match dlookup fields "data" with
  | some (JValue.varr ds) => ds
  | _ => []

theorem dataElems_sizeOf (fields : List (String × JValue)) :
    sizeOf (dataElems fields) < sizeOf (JValue.vobj fields) := by
  unfold dataElems
  split
  · rename_i ds h
    have := dlookup_sizeOf_arr h
    simp at this ⊢
    omega
  · cases fields with
    | nil => simp
    | cons kv t => simp

mutual

/-- Response normalization as §4.4 of the specification words it: a
sequence normalizes elementwise, a mapping whose `object` field equals
`"list"` becomes the sequence of normalized elements of its `data` field
(the envelope's other fields are discarded), everything else is returned
unchanged.  Written from the spec's words, for comparison against
`convert_json_response`. -/
def normSpec : JValue → JValue
  | .varr xs => .varr (normSpecList xs)
  | .vobj fields =>
    if isListTag fields then .varr (normSpecList (dataElems fields))
    else .vobj fields
  | v => v
termination_by v => sizeOf v
decreasing_by
  · simp
  · have := dataElems_sizeOf fields
    simp at this ⊢
    omega

/-- Elementwise spec-side normalization of a sequence. -/
def normSpecList : List JValue → List JValue
  | [] => []
  | x :: t => normSpec x :: normSpecList t
termination_by l => sizeOf l
decreasing_by
  · simp
    omega
  · simp

end

mutual

/-- Well-formedness for normalization: along the paths that
`convert_json_response` visits, every mapping tagged `object == 'list'`
carries a sequence-valued `data` entry. -/
def WFconv : JValue → Bool
  | .varr xs => WFconvList xs
  | .vobj fields =>
    if isListTag fields then
      match h : dlookup fields "data" with
      | some (JValue.varr ds) => WFconvList ds
      | _ => false
    else true
  | _ => true
termination_by v => sizeOf v
decreasing_by
  · simp
  · have := dlookup_sizeOf_arr h
    simp at this ⊢
    omega

/-- Elementwise well-formedness for a sequence. -/
def WFconvList : List JValue → Bool
  | [] => true
  | x :: t => WFconv x && WFconvList t
termination_by l => sizeOf l
decreasing_by
  · simp
    omega
  · simp

end

mutual

/-- The precondition of C10: along the paths that `convert_json_response`
visits, every mapping tagged `object == 'list'` has a `data` entry (of
any type). -/
def dataPresent : JValue → Bool
  | .varr xs => dataPresentList xs
  | .vobj fields =>
    if isListTag fields then
      match h : dlookup fields "data" with
      | none => false
      | some (JValue.varr ds) => dataPresentList ds
      | some _ => true
    else true
  | _ => true
termination_by v => sizeOf v
decreasing_by
  · simp
  · have := dlookup_sizeOf_arr h
    simp at this ⊢
    omega

/-- Elementwise `data`-presence for a sequence. -/
def dataPresentList : List JValue → Bool
  | [] => true
  | x :: t => dataPresent x && dataPresentList t
termination_by l => sizeOf l
decreasing_by
  · simp
    omega
  · simp

end

/-! ## Dictionary lemmas -/

theorem dlookup_dset_self (d : List (String × JValue)) (k : String) (v : JValue) :
    dlookup (dset d k v) k = some v := by
  induction d with
  | nil => simp [dset, dlookup]
  | cons kv t ih =>
    by_cases h : kv.1 = k
    · simp [dset, h, dlookup]
    · simp [dset, h, dlookup, ih]

theorem dlookup_dset_ne (d : List (String × JValue)) (k q : String) (v : JValue)
    (h : q ≠ k) : dlookup (dset d k v) q = dlookup d q := by
  have hkq : k ≠ q := Ne.symm h
  induction d with
  | nil => simp [dset, dlookup, hkq]
  | cons kv t ih =>
    by_cases hk : kv.1 = k
    · simp [dset, hk, dlookup, hkq]
    · simp [dset, hk, dlookup, ih]

theorem dlookup_ddel_self (d : List (String × JValue)) (k : String) :
    dlookup (ddel d k) k = none := by
  induction d with
  | nil => simp [ddel, dlookup]
  | cons kv t ih =>
    by_cases h : kv.1 = k <;> simp [ddel, h, dlookup, ih]

theorem dlookup_ddel_ne (d : List (String × JValue)) (k q : String)
    (h : q ≠ k) : dlookup (ddel d k) q = dlookup d q := by
  induction d with
  | nil => simp [ddel]
  | cons kv t ih =>
    by_cases hk : kv.1 = k
    · simp [ddel, hk, dlookup, ih, Ne.symm h]
    · simp [ddel, hk, dlookup, ih]

theorem dlookup_mem {d : List (String × JValue)} {k : String} {v : JValue}
    (h : dlookup d k = some v) : (k, v) ∈ d := by
  induction d with
  | nil => simp [dlookup] at h
  | cons kv t ih =>
    simp only [dlookup] at h
    split at h
    · rename_i heq
      cases h
      obtain ⟨k1, v1⟩ := kv
      simp only at heq
      subst heq
      exact List.mem_cons_self _ _
    · exact List.mem_cons_of_mem _ (ih h)

theorem mem_keys_of_dlookup {d : List (String × JValue)} {q : String} {v : JValue}
    (h : dlookup d q = some v) : q ∈ keysOf d := by
  have := dlookup_mem h
  exact List.mem_map_of_mem Prod.fst this

theorem dlookup_of_mem {d : List (String × JValue)} {k : String} {v : JValue}
    (hnd : (keysOf d).Nodup) (h : (k, v) ∈ d) : dlookup d k = some v := by
  induction d with
  | nil => simp at h
  | cons kv t ih =>
    simp only [keysOf, List.map_cons, List.nodup_cons] at hnd
    rcases List.mem_cons.mp h with h1 | h2
    · cases h1
      simp [dlookup]
    · have hk : kv.1 ≠ k := by
        intro he
        exact hnd.1 (he ▸ List.mem_map_of_mem Prod.fst h2)
      simp [dlookup, hk]
      exact ih hnd.2 h2

theorem keys_dset_sub {d : List (String × JValue)} {k q : String} {v : JValue}
    (h : q ∈ keysOf (dset d k v)) : q ∈ keysOf d ∨ q = k := by
  induction d with
  | nil => simpa [dset, keysOf] using h
  | cons kv t ih =>
    by_cases hk : kv.1 = k
    · simp only [dset, hk, if_true, keysOf, List.map_cons, List.mem_cons] at h ⊢
      tauto
    · simp only [dset, hk, if_false, keysOf, List.map_cons, List.mem_cons] at h ⊢
      rcases h with h | h
      · tauto
      · rcases ih h with h' | h' <;> tauto

theorem keys_ddel_sub {d : List (String × JValue)} {k q : String}
    (h : q ∈ keysOf (ddel d k)) : q ∈ keysOf d := by
  induction d with
  | nil => simpa [ddel] using h
  | cons kv t ih =>
    by_cases hk : kv.1 = k
    · simp only [ddel, hk, if_true] at h
      simp only [keysOf, List.map_cons, List.mem_cons]
      exact Or.inr (ih h)
    · simp only [ddel, hk, if_false, keysOf, List.map_cons, List.mem_cons] at h ⊢
      rcases h with h | h
      · tauto
      · exact Or.inr (ih h)

theorem mem_dset {d : List (String × JValue)} {k : String} {v : JValue}
    {kv' : String × JValue} (h : kv' ∈ dset d k v) : kv' ∈ d ∨ kv'.2 = v := by
  induction d with
  | nil =>
    simp [dset] at h
    exact Or.inr (by simp [h])
  | cons kv t ih =>
    by_cases hk : kv.1 = k
    · simp only [dset, hk, if_true, List.mem_cons] at h
      rcases h with h | h
      · exact Or.inr (by simp [h])
      · exact Or.inl (List.mem_cons_of_mem _ h)
    · simp only [dset, hk, if_false, List.mem_cons] at h
      rcases h with h | h
      · exact Or.inl (h ▸ List.mem_cons_self _ _)
      · rcases ih h with h' | h'
        · exact Or.inl (List.mem_cons_of_mem _ h')
        · exact Or.inr h'

theorem mem_ddel {d : List (String × JValue)} {k : String}
    {kv' : String × JValue} (h : kv' ∈ ddel d k) : kv' ∈ d := by
  induction d with
  | nil => simpa [ddel] using h
  | cons kv t ih =>
    by_cases hk : kv.1 = k
    · simp only [ddel, hk, if_true] at h
      exact List.mem_cons_of_mem _ (ih h)
    · simp only [ddel, hk, if_false, List.mem_cons] at h
      rcases h with h | h
      · simp [h]
      · exact List.mem_cons_of_mem _ (ih h)

/-! ## Synthesized-key lemmas -/

theorem syn_inj {k a b : String} (h : syn k a = syn k b) : a = b := by
  unfold syn at h
  have hd : ((k ++ "[") ++ a).data ++ "]".data = ((k ++ "[") ++ b).data ++ "]".data := by
    have := congrArg String.data h
    simpa [String.data_append] using this
  have h2 : ((k ++ "[") ++ a).data = ((k ++ "[") ++ b).data := List.append_cancel_right hd
  have h3 : (k ++ "[").data ++ a.data = (k ++ "[").data ++ b.data := by
    simpa [String.data_append] using h2
  have h4 : a.data = b.data := List.append_cancel_left h3
  cases a; cases b; exact congrArg String.mk h4

theorem syn_ne {k a : String} : syn k a ≠ k := by
  intro h
  have := congrArg String.length h
  have e1 : "[".length = 1 := rfl
  have e2 : "]".length = 1 := rfl
  simp [syn, String.length_append, e1, e2] at this
  omega

theorem synFold_cons (key : String) (ab : String × JValue)
    (t : List (String × JValue)) (p : List (String × JValue)) :
    synFold key (ab :: t) p = synFold key t (dset p (syn key ab.1) ab.2) := rfl

theorem dlookup_synFold_ne {key : String} {inner p : List (String × JValue)}
    {q : String} (h : ∀ ab ∈ inner, q ≠ syn key ab.1) :
    dlookup (synFold key inner p) q = dlookup p q := by
  induction inner generalizing p with
  | nil => rfl
  | cons ab t ih =>
    rw [synFold_cons, ih fun ab' hab' => h ab' (List.mem_cons_of_mem _ hab')]
    exact dlookup_dset_ne _ _ _ _ (h ab (List.mem_cons_self _ _))

theorem dlookup_synFold_mem {key a : String} {va : JValue}
    {inner p : List (String × JValue)} (hnd : (keysOf inner).Nodup)
    (hmem : (a, va) ∈ inner) :
    dlookup (synFold key inner p) (syn key a) = some va := by
  induction inner generalizing p with
  | nil => simp at hmem
  | cons ab t ih =>
    simp only [keysOf, List.map_cons, List.nodup_cons] at hnd
    rcases List.mem_cons.mp hmem with h1 | h2
    · cases h1
      rw [synFold_cons]
      have hne : ∀ ab' ∈ t, syn key a ≠ syn key ab'.1 := by
        intro ab' hab' hq
        have ha : a = ab'.1 := syn_inj hq
        have hmem' : a ∈ List.map Prod.fst t := by
          rw [ha]
          exact List.mem_map_of_mem Prod.fst hab'
        exact hnd.1 hmem'
      rw [dlookup_synFold_ne hne]
      exact dlookup_dset_self _ _ _
    · rw [synFold_cons]
      exact ih hnd.2 h2

theorem keys_synFold_sub {key : String} {inner p : List (String × JValue)}
    {q : String} (h : q ∈ keysOf (synFold key inner p)) :
    q ∈ keysOf p ∨ ∃ ab ∈ inner, q = syn key ab.1 := by
  induction inner generalizing p with
  | nil => exact Or.inl h
  | cons ab t ih =>
    rw [synFold_cons] at h
    rcases ih h with h' | ⟨ab', hab', he⟩
    · rcases keys_dset_sub h' with h'' | h''
      · exact Or.inl h''
      · exact Or.inr ⟨ab, List.mem_cons_self _ _, h''⟩
    · exact Or.inr ⟨ab', List.mem_cons_of_mem _ hab', he⟩

theorem mem_synFold {key : String} {inner p : List (String × JValue)}
    {kv' : String × JValue} (h : kv' ∈ synFold key inner p) :
    kv' ∈ p ∨ ∃ ab ∈ inner, kv'.2 = ab.2 := by
  induction inner generalizing p with
  | nil => exact Or.inl h
  | cons ab t ih =>
    rw [synFold_cons] at h
    rcases ih h with h' | ⟨ab', hab', he⟩
    · rcases mem_dset h' with h'' | h''
      · exact Or.inl h''
      · exact Or.inr ⟨ab, List.mem_cons_self _ _, h''⟩
    · exact Or.inr ⟨ab', List.mem_cons_of_mem _ hab', he⟩

theorem mem_ddel_key {d : List (String × JValue)} {k : String}
    {kv' : String × JValue} (h : kv' ∈ ddel d k) : kv'.1 ≠ k := by
  induction d with
  | nil => simp [ddel] at h
  | cons kv t ih =>
    by_cases hk : kv.1 = k
    · simp only [ddel, hk, if_true] at h
      exact ih h
    · simp only [ddel, hk, if_false, List.mem_cons] at h
      rcases h with h | h
      · rw [h]
        exact hk
      · exact ih h

/-! ## The flattening loop, in full generality

`flatten_go` characterizes the result of running the snapshot loop of
`Client._req` over a list of snapshot keys `ks`, provided each snapshot
key is bound to a dict and no synthesized key collides with an existing
key or with another synthesized key.  Under those hypotheses the loop does
not crash, deletes the snapshot keys, binds each synthesized key to its
inner value, leaves every other key untouched, and leaves no dict-valued
entry behind. -/
theorem flatten_go (ks : List String) (p : List (String × JValue))
    (hnd : ks.Nodup)
    (hin : ∀ k ∈ ks, ∃ inner, dlookup p k = some (JValue.vobj inner) ∧
      (keysOf inner).Nodup ∧ (∀ ab ∈ inner, ab.2.isObjB = false) ∧
      (∀ ab ∈ inner, syn k ab.1 ∉ keysOf p))
    (hpair : ∀ k1 ∈ ks, ∀ k2 ∈ ks, k1 ≠ k2 →
      ∀ i1 i2, dlookup p k1 = some (JValue.vobj i1) →
        dlookup p k2 = some (JValue.vobj i2) →
        ∀ a1 ∈ keysOf i1, ∀ a2 ∈ keysOf i2, syn k1 a1 ≠ syn k2 a2)
    (hobj : ∀ kv ∈ p, kv.2.isObjB = true → kv.1 ∈ ks) :
    ∃ res, List.foldlM flatten_one p ks = some res ∧
      (∀ k ∈ ks, dlookup res k = none) ∧
      (∀ k ∈ ks, ∀ inner, dlookup p k = some (JValue.vobj inner) →
        ∀ ab ∈ inner, dlookup res (syn k ab.1) = some ab.2) ∧
      (∀ q, q ∉ ks →
        (∀ k ∈ ks, ∀ inner, dlookup p k = some (JValue.vobj inner) →
          ∀ ab ∈ inner, q ≠ syn k ab.1) →
        dlookup res q = dlookup p q) ∧
      (∀ kv ∈ res, kv.2.isObjB = false) := by
  induction ks generalizing p with
  | nil =>
    refine ⟨p, rfl, by simp, by simp, fun q _ _ => rfl, fun kv hkv => ?_⟩
    cases hb : kv.2.isObjB
    · rfl
    · exact absurd (hobj kv hkv hb) (by simp)
  | cons k kt ih =>
    obtain ⟨hknotin, hndt⟩ := List.nodup_cons.mp hnd
    obtain ⟨inner, hk, hindn, hinobj, hsynk⟩ := hin k (List.mem_cons_self _ _)
    set p1 := ddel (synFold k inner p) k with hp1
    have hstep : flatten_one p k = some p1 := by
      simp [flatten_one, hk]
    have hktail : ∀ k' ∈ kt, k' ≠ k := fun k' hk' he => hknotin (he ▸ hk')
    have fact1 : ∀ k' ∈ kt, dlookup p1 k' = dlookup p k' := by
      intro k' hk'
      obtain ⟨inner', hk'l, _, _, _⟩ := hin k' (List.mem_cons_of_mem _ hk')
      rw [hp1, dlookup_ddel_ne _ _ _ (hktail k' hk'),
        dlookup_synFold_ne (fun ab hab he => ?_)]
      exact hsynk ab hab (he ▸ mem_keys_of_dlookup hk'l)
    have fact2 : ∀ q, q ∈ keysOf p1 → q ∈ keysOf p ∨ ∃ ab ∈ inner, q = syn k ab.1 :=
      fun q hq => keys_synFold_sub (keys_ddel_sub hq)
    have hin' : ∀ k' ∈ kt, ∃ inner', dlookup p1 k' = some (JValue.vobj inner') ∧
        (keysOf inner').Nodup ∧ (∀ ab ∈ inner', ab.2.isObjB = false) ∧
        (∀ ab ∈ inner', syn k' ab.1 ∉ keysOf p1) := by
      intro k' hk'
      obtain ⟨inner', hl, hn, ho, hs⟩ := hin k' (List.mem_cons_of_mem _ hk')
      refine ⟨inner', (fact1 k' hk').trans hl, hn, ho, fun ab hab hmem => ?_⟩
      rcases fact2 _ hmem with hc | ⟨ab1, hab1, he⟩
      · exact hs ab hab hc
      · exact hpair k' (List.mem_cons_of_mem _ hk') k (List.mem_cons_self _ _)
          (hktail k' hk') inner' inner hl hk
          ab.1 (List.mem_map_of_mem Prod.fst hab)
          ab1.1 (List.mem_map_of_mem Prod.fst hab1) he
    have hpair' : ∀ k1 ∈ kt, ∀ k2 ∈ kt, k1 ≠ k2 →
        ∀ i1 i2, dlookup p1 k1 = some (JValue.vobj i1) →
          dlookup p1 k2 = some (JValue.vobj i2) →
          ∀ a1 ∈ keysOf i1, ∀ a2 ∈ keysOf i2, syn k1 a1 ≠ syn k2 a2 := by
      intro k1 h1 k2 h2 hne i1 i2 hl1 hl2
      exact hpair k1 (List.mem_cons_of_mem _ h1) k2 (List.mem_cons_of_mem _ h2) hne
        i1 i2 ((fact1 k1 h1).symm.trans hl1) ((fact1 k2 h2).symm.trans hl2)
    have hobj' : ∀ kv ∈ p1, kv.2.isObjB = true → kv.1 ∈ kt := by
      intro kv hkv hb
      have hne := mem_ddel_key hkv
      rcases mem_synFold (mem_ddel hkv) with hmem | ⟨ab, hab, he⟩
      · rcases List.mem_cons.mp (hobj kv hmem hb) with h | h
        · exact absurd h hne
        · exact h
      · rw [he] at hb
        rw [hinobj ab hab] at hb
        cases hb
    obtain ⟨res, hres, c1, c2, c3, c4⟩ := ih p1 hndt hin' hpair' hobj'
    have hfold : List.foldlM flatten_one p (k :: kt) = some res := by
      rw [List.foldlM_cons, hstep]
      simpa using hres
    have hkinp : k ∈ keysOf p := mem_keys_of_dlookup hk
    have htailp : ∀ k' ∈ kt, k' ∈ keysOf p := by
      intro k' hk'
      obtain ⟨inner', hl, _, _, _⟩ := hin k' (List.mem_cons_of_mem _ hk')
      exact mem_keys_of_dlookup hl
    refine ⟨res, hfold, ?_, ?_, ?_, c4⟩
    · intro k' hk'
      rcases List.mem_cons.mp hk' with rfl | hmem
      · have := c3 k' hknotin (fun k'' hk'' inner'' hl'' ab hab => ?_)
        · rw [this, hp1, dlookup_ddel_self]
        · have hl2 : dlookup p k'' = some (JValue.vobj inner'') :=
            (fact1 k'' hk'').symm.trans hl''
          obtain ⟨innerx, hlx, _, _, hsx⟩ := hin k'' (List.mem_cons_of_mem _ hk'')
          have : innerx = inner'' := by
            rw [hlx] at hl2
            cases hl2
            rfl
          subst this
          intro he
          refine hsx ab hab ?_
          rw [← he]
          exact hkinp
      · exact c1 k' hmem
    · intro k' hk' inner0 hl0 ab hab
      rcases List.mem_cons.mp hk' with rfl | hmem
      · have hio : inner0 = inner := by
          rw [hl0] at hk
          cases hk
          rfl
        rw [hio] at hab
        have hsyn_notp : syn k' ab.1 ∉ keysOf p := hsynk ab hab
        have hq_nmem : syn k' ab.1 ∉ kt :=
          fun hc => hsyn_notp (htailp _ hc)
        have := c3 (syn k' ab.1) hq_nmem (fun k'' hk'' inner'' hl'' ab'' hab'' => ?_)
        · rw [this, hp1,
            dlookup_ddel_ne _ _ _ (fun he => hsyn_notp (by rw [he]; exact hkinp)),
            dlookup_synFold_mem hindn (by simpa using hab)]
        · have hl2 : dlookup p k'' = some (JValue.vobj inner'') :=
            (fact1 k'' hk'').symm.trans hl''
          exact hpair k' (List.mem_cons_self _ _) k'' (List.mem_cons_of_mem _ hk'')
            (fun he => hknotin (by rw [he]; exact hk'')) inner inner'' hk hl2
            ab.1 (List.mem_map_of_mem Prod.fst hab)
            ab''.1 (List.mem_map_of_mem Prod.fst hab'')
      · have hl1 : dlookup p1 k' = some (JValue.vobj inner0) :=
          (fact1 k' hmem).trans hl0
        exact c2 k' hmem inner0 hl1 ab hab
    · intro q hq hcond
      have hqk : q ≠ k := fun he => hq (he ▸ List.mem_cons_self _ _)
      have hqt : q ∉ kt := fun hc => hq (List.mem_cons_of_mem _ hc)
      have := c3 q hqt (fun k'' hk'' inner'' hl'' ab hab => ?_)
      · rw [this, hp1, dlookup_ddel_ne _ _ _ hqk,
          dlookup_synFold_ne (fun ab hab => hcond k (List.mem_cons_self _ _) inner hk ab hab)]
      · have hl2 : dlookup p k'' = some (JValue.vobj inner'') :=
          (fact1 k'' hk'').symm.trans hl''
        exact hcond k'' (List.mem_cons_of_mem _ hk'') inner'' hl2 ab hab

/-! ## Encoder support lemmas -/

theorem boolFix_isObjB (v : JValue) : (boolFix v).isObjB = v.isObjB := by
  cases v <;> rfl

theorem boolFix_isBoolB (v : JValue) : (boolFix v).isBoolB = false := by
  cases v <;> rfl

theorem boolFix_scalarNB {v : JValue} (h : v.isScalarNB = true) : boolFix v = v := by
  cases v with
  | vstr s => rfl
  | vint n => rfl
  | vnull => simp [JValue.isScalarNB] at h
  | vbool b => simp [JValue.isScalarNB] at h
  | varr xs => simp [JValue.isScalarNB] at h
  | vobj fs => simp [JValue.isScalarNB] at h

theorem scalarNB_not_obj {v : JValue} (h : v.isScalarNB = true) : v.isObjB = false := by
  cases v <;> simp_all [JValue.isScalarNB, JValue.isObjB]

theorem scalarB_not_obj {v : JValue} (h : v.isScalarB = true) : v.isObjB = false := by
  cases v <;> simp_all [JValue.isScalarB, JValue.isObjB]

theorem dlookup_bools (d : List (String × JValue)) (q : String) :
    dlookup (bools_to_strings d) q = (dlookup d q).map boolFix := by
  induction d with
  | nil => rfl
  | cons kv t ih =>
    by_cases hq : kv.1 = q <;> simp [bools_to_strings, dlookup, hq] <;> simpa [bools_to_strings] using ih

theorem objKeys_sublist (p : List (String × JValue)) :
    List.Sublist (objKeys p) (keysOf p) :=
  List.Sublist.map Prod.fst (List.filter_sublist p)

theorem objKeys_nodup {p : List (String × JValue)} (hnd : (keysOf p).Nodup) :
    (objKeys p).Nodup :=
  List.Nodup.sublist (objKeys_sublist p) hnd

theorem mem_objKeys {p : List (String × JValue)} {k : String} :
    k ∈ objKeys p ↔ ∃ v, (k, v) ∈ p ∧ v.isObjB = true := by
  constructor
  · intro h
    obtain ⟨kv, hkv, he⟩ := List.mem_map.mp h
    obtain ⟨hmem, hf⟩ := List.mem_filter.mp hkv
    obtain ⟨k1, v1⟩ := kv
    simp only at he
    subst he
    exact ⟨v1, hmem, by simpa using hf⟩
  · intro ⟨v, hmem, hv⟩
    exact List.mem_map.mpr ⟨(k, v), List.mem_filter.mpr ⟨hmem, by simpa using hv⟩, rfl⟩

theorem objKeys_eq_nil {p : List (String × JValue)}
    (h : ∀ kv ∈ p, kv.2.isObjB = false) : objKeys p = [] := by
  unfold objKeys
  rw [List.filter_eq_nil.mpr fun kv hkv => by simp [h kv hkv]]
  rfl

theorem objKeys_singleton {p : List (String × JValue)} {k : String}
    {inner : List (String × JValue)} (hnd : (keysOf p).Nodup)
    (hk : dlookup p k = some (JValue.vobj inner))
    (honly : ∀ kv ∈ p, kv.1 ≠ k → kv.2.isObjB = false) :
    objKeys p = [k] := by
  induction p with
  | nil => simp [dlookup] at hk
  | cons kv t ih =>
    simp only [keysOf, List.map_cons, List.nodup_cons] at hnd
    by_cases hke : kv.1 = k
    · simp only [dlookup, hke, if_true] at hk
      have h2 : kv.2 = JValue.vobj inner := Option.some.inj hk
      have hobjkv : kv.2.isObjB = true := by
        rw [h2]
        rfl
      have htail : objKeys t = [] := by
        refine objKeys_eq_nil fun kv' hkv' => ?_
        refine honly kv' (List.mem_cons_of_mem _ hkv') fun he => ?_
        exact hnd.1 (hke ▸ he ▸ List.mem_map_of_mem Prod.fst hkv')
      simp [objKeys, List.filter, hobjkv, hke]
      simpa [objKeys] using htail
    · simp only [dlookup, hke, if_false] at hk
      have hkv_not : kv.2.isObjB = false := honly kv (List.mem_cons_self _ _) hke
      have := ih hnd.2 hk (fun kv' hkv' hne => honly kv' (List.mem_cons_of_mem _ hkv') hne)
      simp [objKeys, List.filter, hkv_not]
      simpa [objKeys] using this

/-! ## Claims about the parameter encoder (C2, C3, C9) -/

/-- C2, counterexample.  The claim quantifies over every parameter mapping
containing a nested-mapping key `k` and asserts that all keys other than
`k` keep their values.  The mapping `{'k': {'a': 1}, 'm': {'b': 2}}`
contains such a `k`, yet the flattening loop of `Client._req` also removes
the second nested-mapping key `'m'`, so `'m'` is not preserved. -/
theorem claim_C2_counterexample :
    flatten_params [("k", JValue.vobj [("a", JValue.vint 1)]),
        ("m", JValue.vobj [("b", JValue.vint 2)])]
      = some [("k[a]", JValue.vint 1), ("m[b]", JValue.vint 2)] ∧
    ¬ ((flatten_params [("k", JValue.vobj [("a", JValue.vint 1)]),
          ("m", JValue.vobj [("b", JValue.vint 2)])]).bind
        (fun d => dlookup d "m") = some (JValue.vobj [("b", JValue.vint 2)])) := by
  have h0 : (flatten_params [("k", JValue.vobj [("a", JValue.vint 1)]),
      ("m", JValue.vobj [("b", JValue.vint 2)])]).bind (fun d => dlookup d "m") = none := rfl
  exact ⟨rfl, fun h => by rw [h0] at h; cases h⟩

/-- C2 (amended): for every parameter mapping (unique keys, as in a Python
dict) containing a key `k` bound to a nested mapping of non-boolean
scalars, *provided* `k` is the only mapping-valued key and no input key
coincides with a synthesized key `k[a]`, the flattening step of
`Client._req` succeeds, removes `k`, binds each `k[a]` to the unchanged
inner value, and preserves every other key with its value. -/
theorem claim_C2_amended (p : List (String × JValue)) (k : String)
    (inner : List (String × JValue))
    (hnd : (keysOf p).Nodup)
    (hk : dlookup p k = some (JValue.vobj inner))
    (hinnd : (keysOf inner).Nodup)
    (hscal : ∀ ab ∈ inner, ab.2.isScalarNB = true)
    (honly : ∀ kv ∈ p, kv.1 ≠ k → kv.2.isObjB = false)
    (hfresh : ∀ ab ∈ inner, syn k ab.1 ∉ keysOf p) :
    ∃ res, flatten_params p = some res ∧
      dlookup res k = none ∧
      (∀ ab ∈ inner, dlookup res (syn k ab.1) = some ab.2) ∧
      (∀ q, q ≠ k → (∀ ab ∈ inner, q ≠ syn k ab.1) → dlookup res q = dlookup p q) := by
  have hks : objKeys p = [k] := objKeys_singleton hnd hk honly
  have hin : ∀ k' ∈ [k], ∃ inner', dlookup p k' = some (JValue.vobj inner') ∧
      (keysOf inner').Nodup ∧ (∀ ab ∈ inner', ab.2.isObjB = false) ∧
      (∀ ab ∈ inner', syn k' ab.1 ∉ keysOf p) := by
    intro k' hk'
    rcases List.mem_singleton.mp hk' with rfl
    exact ⟨inner, hk, hinnd, fun ab hab => scalarNB_not_obj (hscal ab hab), hfresh⟩
  have hpair : ∀ k1 ∈ [k], ∀ k2 ∈ [k], k1 ≠ k2 →
      ∀ i1 i2, dlookup p k1 = some (JValue.vobj i1) →
        dlookup p k2 = some (JValue.vobj i2) →
        ∀ a1 ∈ keysOf i1, ∀ a2 ∈ keysOf i2, syn k1 a1 ≠ syn k2 a2 := by
    intro k1 h1 k2 h2 hne
    rcases List.mem_singleton.mp h1 with rfl
    rcases List.mem_singleton.mp h2 with rfl
    exact absurd rfl hne
  have hobj : ∀ kv ∈ p, kv.2.isObjB = true → kv.1 ∈ [k] := by
    intro kv hkv hb
    by_cases hke : kv.1 = k
    · simp [hke]
    · rw [honly kv hkv hke] at hb
      cases hb
  obtain ⟨res, hres, c1, c2, c3, _⟩ :=
    flatten_go [k] p (List.nodup_singleton k) hin hpair hobj
  refine ⟨res, ?_, ?_, ?_, ?_⟩
  · rw [flatten_params, hks]
    exact hres
  · exact c1 k (List.mem_singleton_self k)
  · exact fun ab hab => c2 k (List.mem_singleton_self k) inner hk ab hab
  · intro q hqk hqs
    refine c3 q (fun hc => hqk (List.mem_singleton.mp hc)) ?_
    intro k' hk' inner' hl' ab hab
    rcases List.mem_singleton.mp hk' with rfl
    have hii : inner' = inner := by
      rw [hl'] at hk
      exact JValue.vobj.inj (Option.some.inj hk)
    rw [hii] at hab
    exact hqs ab hab

/-- C2, witness for the amended theorem at the concrete mapping
`{'k': {'a': 1, 'b': 'z'}, 'x': 's'}`. -/
theorem claim_C2_witness :
    ∃ res, flatten_params [("k", JValue.vobj [("a", JValue.vint 1), ("b", JValue.vstr "z")]),
        ("x", JValue.vstr "s")] = some res ∧
      dlookup res "k" = none ∧
      (∀ ab ∈ [("a", JValue.vint 1), ("b", JValue.vstr "z")],
        dlookup res (syn "k" ab.1) = some ab.2) ∧
      (∀ q, q ≠ "k" → (∀ ab ∈ [("a", JValue.vint 1), ("b", JValue.vstr "z")],
          q ≠ syn "k" ab.1) →
        dlookup res q = dlookup [("k", JValue.vobj [("a", JValue.vint 1), ("b", JValue.vstr "z")]),
          ("x", JValue.vstr "s")] q) :=
  claim_C2_amended _ "k" _ (by decide) rfl (by decide) (by decide)
    (by decide) (by decide)

/-- C3, counterexample.  The claim quantifies over every parameter mapping
whose values are scalars or nested mappings and asserts every
non-mapping, non-boolean value passes through unchanged.  In
`{'a': {'b': 1}, 'a[b]': 5}` the synthesized key `a[b]` overwrites the
existing entry `'a[b]': 5`, so `5` is not preserved. -/
theorem claim_C3_counterexample :
    encode_params [("a", JValue.vobj [("b", JValue.vint 1)]), ("a[b]", JValue.vint 5)]
      = some [("a[b]", JValue.vint 1)] ∧
    ¬ ((encode_params [("a", JValue.vobj [("b", JValue.vint 1)]), ("a[b]", JValue.vint 5)]).bind
        (fun d => dlookup d "a[b]") = some (JValue.vint 5)) := by
  have h0 : (encode_params [("a", JValue.vobj [("b", JValue.vint 1)]),
      ("a[b]", JValue.vint 5)]).bind (fun d => dlookup d "a[b]")
      = some (JValue.vint 1) := rfl
  refine ⟨rfl, fun h => ?_⟩
  rw [h0] at h
  have : JValue.vint 1 = JValue.vint 5 := Option.some.inj h
  have h5 : (1 : Int) = 5 := JValue.vint.inj this
  cases h5

/-- C3 (amended): for every parameter mapping (unique keys) whose values
are scalars or one-level nested mappings of scalars, *provided* the keys
are collision-free — no synthesized key `k[a]` equals an existing key or
another synthesized key, the uniqueness requirement of the spec's data
model — the encoding of `Client._req` succeeds and yields a flat mapping
with no nested-mapping and no boolean values, in which every boolean
(top-level or nested) became `"true"`/`"false"`, every other scalar
passed through unchanged, and every nested entry is found under its
synthesized key. -/
theorem claim_C3_amended (p : List (String × JValue))
    (hnd : (keysOf p).Nodup)
    (hone : ∀ kv ∈ p, kv.2.isScalarB = true ∨
      (kv.2.isObjB = true ∧ (keysOf kv.2.objFields).Nodup ∧
        ∀ ab ∈ kv.2.objFields, ab.2.isScalarB = true))
    (hsynA : ∀ kv ∈ p, ∀ ab ∈ kv.2.objFields, syn kv.1 ab.1 ∉ keysOf p)
    (hsynB : ∀ kv1 ∈ p, ∀ kv2 ∈ p, kv1.1 ≠ kv2.1 →
      ∀ ab1 ∈ kv1.2.objFields, ∀ ab2 ∈ kv2.2.objFields,
        syn kv1.1 ab1.1 ≠ syn kv2.1 ab2.1) :
    ∃ res, encode_params p = some res ∧
      (∀ kv ∈ res, kv.2.isObjB = false ∧ kv.2.isBoolB = false) ∧
      (∀ q v, dlookup p q = some v → v.isScalarNB = true → dlookup res q = some v) ∧
      (∀ q b, dlookup p q = some (JValue.vbool b) →
        dlookup res q = some (JValue.vstr (cond b "true" "false"))) ∧
      (∀ k inner, dlookup p k = some (JValue.vobj inner) →
        ∀ ab ∈ inner, dlookup res (syn k ab.1) = some (boolFix ab.2)) := by
  have hin : ∀ k ∈ objKeys p, ∃ inner, dlookup p k = some (JValue.vobj inner) ∧
      (keysOf inner).Nodup ∧ (∀ ab ∈ inner, ab.2.isObjB = false) ∧
      (∀ ab ∈ inner, syn k ab.1 ∉ keysOf p) := by
    intro k hk
    obtain ⟨v, hmem, hv⟩ := mem_objKeys.mp hk
    cases v with
    | vobj inner =>
      have hdl := dlookup_of_mem hnd hmem
      rcases hone (k, JValue.vobj inner) hmem with hs | ⟨_, hinnd, hscal⟩
      · simp [JValue.isScalarB] at hs
      · refine ⟨inner, hdl, by simpa [JValue.objFields] using hinnd, ?_, ?_⟩
        · intro ab hab
          exact scalarB_not_obj (by simpa [JValue.objFields] using hscal ab hab)
        · intro ab hab
          exact hsynA (k, JValue.vobj inner) hmem ab (by simpa [JValue.objFields] using hab)
    | vnull => simp [JValue.isObjB] at hv
    | vbool b => simp [JValue.isObjB] at hv
    | vint n => simp [JValue.isObjB] at hv
    | vstr s => simp [JValue.isObjB] at hv
    | varr xs => simp [JValue.isObjB] at hv
  have hpair : ∀ k1 ∈ objKeys p, ∀ k2 ∈ objKeys p, k1 ≠ k2 →
      ∀ i1 i2, dlookup p k1 = some (JValue.vobj i1) →
        dlookup p k2 = some (JValue.vobj i2) →
        ∀ a1 ∈ keysOf i1, ∀ a2 ∈ keysOf i2, syn k1 a1 ≠ syn k2 a2 := by
    intro k1 _ k2 _ hne i1 i2 hl1 hl2 a1 ha1 a2 ha2
    obtain ⟨ab1, hab1, he1⟩ := List.mem_map.mp ha1
    obtain ⟨ab2, hab2, he2⟩ := List.mem_map.mp ha2
    have := hsynB (k1, JValue.vobj i1) (dlookup_mem hl1)
      (k2, JValue.vobj i2) (dlookup_mem hl2) hne
      ab1 (by simpa [JValue.objFields] using hab1)
      ab2 (by simpa [JValue.objFields] using hab2)
    rwa [he1, he2] at this
  have hobj : ∀ kv ∈ p, kv.2.isObjB = true → kv.1 ∈ objKeys p := by
    intro kv hkv hb
    exact mem_objKeys.mpr ⟨kv.2, by rwa [Prod.mk.eta], hb⟩
  obtain ⟨res0, hres0, c1, c2, c3, c4⟩ :=
    flatten_go (objKeys p) p (objKeys_nodup hnd) hin hpair hobj
  have henc : encode_params p = some (bools_to_strings res0) := by
    rw [encode_params, flatten_params, hres0]
    rfl
  have hnotmem : ∀ q v, dlookup p q = some v → v.isObjB = false → q ∉ objKeys p := by
    intro q v hq hv hc
    obtain ⟨w, hwmem, hw⟩ := mem_objKeys.mp hc
    have := dlookup_of_mem hnd hwmem
    rw [hq] at this
    rw [← Option.some.inj this] at hw
    rw [hv] at hw
    cases hw
  have hnotsyn : ∀ q v, dlookup p q = some v →
      ∀ k' ∈ objKeys p, ∀ inner', dlookup p k' = some (JValue.vobj inner') →
        ∀ ab ∈ inner', q ≠ syn k' ab.1 := by
    intro q v hq k' _ inner' hl' ab hab he
    refine hsynA (k', JValue.vobj inner') (dlookup_mem hl') ab
      (by simpa [JValue.objFields] using hab) ?_
    rw [← he]
    exact mem_keys_of_dlookup hq
  refine ⟨bools_to_strings res0, henc, ?_, ?_, ?_, ?_⟩
  · intro kv hkv
    obtain ⟨kv', hkv', he⟩ := List.mem_map.mp hkv
    rw [← he]
    constructor
    · rw [boolFix_isObjB]
      exact c4 kv' hkv'
    · exact boolFix_isBoolB _
  · intro q v hq hv
    rw [dlookup_bools, c3 q (hnotmem q v hq (scalarNB_not_obj hv)) (hnotsyn q v hq), hq]
    simp [boolFix_scalarNB hv]
  · intro q b hq
    rw [dlookup_bools, c3 q (hnotmem q _ hq rfl) (hnotsyn q _ hq), hq]
    rfl
  · intro k inner hk ab hab
    have hkmem : k ∈ objKeys p :=
      mem_objKeys.mpr ⟨JValue.vobj inner, dlookup_mem hk, rfl⟩
    rw [dlookup_bools, c2 k hkmem inner hk ab hab]
    rfl

/-- C3, witness for the amended theorem at the spec's own example mapping
`{'amount': 103, 'currency': 'usd', 'metadata': {'a': 'hi'}, 'flag': True}`. -/
theorem claim_C3_witness :
    ∃ res, encode_params [("amount", JValue.vint 103), ("currency", JValue.vstr "usd"),
        ("metadata", JValue.vobj [("a", JValue.vstr "hi")]), ("flag", JValue.vbool true)]
      = some res ∧
      (∀ kv ∈ res, kv.2.isObjB = false ∧ kv.2.isBoolB = false) ∧
      (∀ q v, dlookup [("amount", JValue.vint 103), ("currency", JValue.vstr "usd"),
          ("metadata", JValue.vobj [("a", JValue.vstr "hi")]), ("flag", JValue.vbool true)] q
            = some v → v.isScalarNB = true → dlookup res q = some v) ∧
      (∀ q b, dlookup [("amount", JValue.vint 103), ("currency", JValue.vstr "usd"),
          ("metadata", JValue.vobj [("a", JValue.vstr "hi")]), ("flag", JValue.vbool true)] q
            = some (JValue.vbool b) →
        dlookup res q = some (JValue.vstr (cond b "true" "false"))) ∧
      (∀ k inner, dlookup [("amount", JValue.vint 103), ("currency", JValue.vstr "usd"),
          ("metadata", JValue.vobj [("a", JValue.vstr "hi")]), ("flag", JValue.vbool true)] k
            = some (JValue.vobj inner) →
        ∀ ab ∈ inner, dlookup res (syn k ab.1) = some (boolFix ab.2)) :=
  claim_C3_amended _ (by decide) (by decide) (by decide) (by decide)

/-- C9, counterexample.  The claim asserts the encoding leaves the caller's
mapping unchanged, but lines 91-100 of `Client._req` mutate the `params`
dict in place: after encoding `{'flag': True}` the caller's dict holds
`{'flag': 'true'}`, not its original value. -/
theorem claim_C9_counterexample :
    encode_params [("flag", JValue.vbool true)] = some [("flag", JValue.vstr "true")] ∧
    encode_params [("flag", JValue.vbool true)] ≠ some [("flag", JValue.vbool true)] := by
  refine ⟨rfl, fun h => ?_⟩
  have h0 : encode_params [("flag", JValue.vbool true)]
      = some [("flag", JValue.vstr "true")] := rfl
  rw [h0] at h
  have h1 := List.head_eq_of_cons_eq (Option.some.inj h)
  have h2 : JValue.vstr "true" = JValue.vbool true := congrArg Prod.snd h1
  cases h2

/-- Boolean stringification does nothing to a non-boolean value. -/
theorem boolFix_id {v : JValue} (h : v.isBoolB = false) : boolFix v = v := by
  cases v <;> simp_all [boolFix, JValue.isBoolB]

/-- Boolean stringification does nothing to a boolean-free dict. -/
theorem bools_to_strings_id {p : List (String × JValue)}
    (h : ∀ kv ∈ p, kv.2.isBoolB = false) : bools_to_strings p = p := by
  induction p with
  | nil => rfl
  | cons kv t ih =>
    have h1 := boolFix_id (h kv (List.mem_cons_self _ _))
    have h2 := ih fun kv' hkv' => h kv' (List.mem_cons_of_mem _ hkv')
    simp only [bools_to_strings, List.map_cons] at h2 ⊢
    rw [h1, Prod.mk.eta, h2]

/-- C9 (amended): the encoding steps of `Client._req` operate destructively
on the mapping object passed as `params`, so after the call the caller's
mapping holds the encoded entries; it is left unchanged exactly on
mappings that are already flat and boolean-free.  This theorem proves the
identity direction: on a mapping with no nested-mapping and no boolean
values the encoding is the identity. -/
theorem claim_C9_amended (p : List (String × JValue))
    (hflat : ∀ kv ∈ p, kv.2.isObjB = false ∧ kv.2.isBoolB = false) :
    encode_params p = some p := by
  have h1 : objKeys p = [] := objKeys_eq_nil fun kv hkv => (hflat kv hkv).1
  have h2 : flatten_params p = some p := by
    rw [flatten_params, h1]
    rfl
  have h3 : bools_to_strings p = p :=
    bools_to_strings_id fun kv hkv => (hflat kv hkv).2
  rw [encode_params, h2]
  simpa using h3

/-- C9, witness for the amended theorem: a flat boolean-free mapping is
encoded to itself. -/
theorem claim_C9_witness :
    encode_params [("amount", JValue.vint 103), ("currency", JValue.vstr "usd")]
      = some [("amount", JValue.vint 103), ("currency", JValue.vstr "usd")] :=
  claim_C9_amended _ (by decide)

/-! ## Claims about error construction and response classification
(C1, C4, C5, C6) -/

/-- C1: the claim says the summary shows ` decline: <decline_code>`
whenever `decline_code` is non-empty.  The code reads
`addstr('decline', ...)`, an attribute that `__init__` never assigns
(the assigned attribute is `decline_code`), so the summary never shows a
decline segment: for a 402 response whose error mapping carries
`decline_code='insufficient_funds'`, the constructed summary is exactly
`"402:"`, with no ` decline: insufficient_funds` substring, even though
the `decline_code` attribute was set to a non-empty string. -/
theorem claim_C1_code_bug :
    (mk_stripe_error 402 (Body.json (JValue.vobj
        [("error", JValue.vobj [("decline_code", JValue.vstr "insufficient_funds")])]))).map
      (fun e => stripe_error_msg 402 e) = some "402:" ∧
    (mk_stripe_error 402 (Body.json (JValue.vobj
        [("error", JValue.vobj [("decline_code", JValue.vstr "insufficient_funds")])]))).map
      (fun e => e.decline_code) = some (some (JValue.vstr "insufficient_funds")) ∧
    strHasSub "402:" " decline: insufficient_funds" = false ∧
    strHasSub "402:" "decline" = false :=
  ⟨rfl, rfl, rfl, rfl⟩

/-- C4, counterexample.  The claim asserts every non-200 response raises a
`StripeError`.  A 500 response whose body is the mapping
`{'error': 'boom'}` instead crashes inside `StripeError.__init__`:
`err = body.get('error', {})` is the truthy string `'boom'`, and
`err.get('type', '')` raises `AttributeError`, so no `StripeError` is
raised although the status is not 200. -/
theorem claim_C4_counterexample :
    handle_response "get" 500 (Body.json (JValue.vobj [("error", JValue.vstr "boom")])) = none ∧
    (500 : Nat) ≠ 200 ∧
    ¬ ∃ e msg, handle_response "get" 500
        (Body.json (JValue.vobj [("error", JValue.vstr "boom")]))
      = some (Except.error (ReqError.stripeErr e msg)) := by
  have h0 : handle_response "get" 500
      (Body.json (JValue.vobj [("error", JValue.vstr "boom")])) = none := rfl
  exact ⟨h0, by decide, fun ⟨e, msg, h⟩ => by rw [h0] at h; cases h⟩

/-- A 200 response never raises a `StripeError` in `Client._req`. -/
theorem handle_response_200_no_stripe (method : String) (body : Body) :
    ∀ e msg, handle_response method 200 body
      ≠ some (Except.error (ReqError.stripeErr e msg)) := by
  intro e msg h
  unfold handle_response at h
  rw [if_neg (by omega : ¬ (200 : Nat) ≠ 200)] at h
  by_cases hdel : pyUpper method = "DELETE"
  · rw [if_pos hdel] at h
    cases body with
    | json v =>
      cases v with
      | vobj fields =>
        simp only [handle_delete] at h
        split at h <;> simp at h
      | vnull => exact Option.noConfusion h
      | vbool b => exact Option.noConfusion h
      | vint n => exact Option.noConfusion h
      | vstr s => exact Option.noConfusion h
      | varr xs => exact Option.noConfusion h
    | raw bs => exact Option.noConfusion h
  · rw [if_neg hdel] at h
    unfold handle_ok at h
    rcases hpc : pyContains body "object" with _ | b
    · simp only [hpc] at h
      exact Option.noConfusion h
    · cases b
      · simp only [hpc] at h
        simp at h
      · simp only [hpc] at h
        cases body with
        | json v =>
          rcases hcv : convert_json_response v with e' | w
          · simp only [hcv] at h
            exact Option.noConfusion h
          · simp only [hcv] at h
            simp at h
        | raw bs => exact Option.noConfusion hpc

/-- When the body's `error` entry is a mapping whenever it is truthy,
`StripeError.__init__` completes without crashing. -/
theorem mk_stripe_error_isSome (status : Nat) (body : Body)
    (hwb : ∀ fields, body = Body.json (JValue.vobj fields) →
      ∀ ev, dlookup fields "error" = some ev → ev.pyTruthy = true → ev.isObjB = true) :
    ∃ e, mk_stripe_error status body = some e := by
  cases body with
  | raw bs => exact ⟨blank_error status, rfl⟩
  | json v =>
    cases v with
    | vnull => exact ⟨blank_error status, rfl⟩
    | vbool b => exact ⟨blank_error status, rfl⟩
    | vint n => exact ⟨blank_error status, rfl⟩
    | vstr s => exact ⟨blank_error status, rfl⟩
    | varr xs => exact ⟨blank_error status, rfl⟩
    | vobj fields =>
      rcases hev : dlookup fields "error" with _ | ev
      · exact ⟨blank_error status, by simp [mk_stripe_error, hev, JValue.pyTruthy]⟩
      · by_cases ht : ev.pyTruthy = true
        · have hobj := hwb fields rfl ev hev ht
          cases ev with
          | vobj efields =>
            exact ⟨filled_error status efields, by simp [mk_stripe_error, hev, ht]⟩
          | vnull => simp [JValue.isObjB] at hobj
          | vbool b => simp [JValue.isObjB] at hobj
          | vint n => simp [JValue.isObjB] at hobj
          | vstr s => simp [JValue.isObjB] at hobj
          | varr xs => simp [JValue.isObjB] at hobj
        · have ht' : ev.pyTruthy = false := by
            cases hb : ev.pyTruthy
            · rfl
            · exact absurd hb ht
          cases ev with
          | vobj efields =>
            exact ⟨blank_error status, by simp [mk_stripe_error, hev, ht']⟩
          | vnull => exact ⟨blank_error status, by simp [mk_stripe_error, hev, ht']⟩
          | vbool b => exact ⟨blank_error status, by simp [mk_stripe_error, hev, ht']⟩
          | vint n => exact ⟨blank_error status, by simp [mk_stripe_error, hev, ht']⟩
          | vstr s => exact ⟨blank_error status, by simp [mk_stripe_error, hev, ht']⟩
          | varr xs => exact ⟨blank_error status, by simp [mk_stripe_error, hev, ht']⟩

/-- C4 (amended): provided the body's `error` entry, when truthy, is a
mapping (otherwise `StripeError.__init__` crashes with `AttributeError`
before any `StripeError` is raised, as the counterexample shows),
`Client._req` raises a `StripeError` iff the status code is not exactly
200; and for a non-200 mapping body with a non-empty `error` mapping, the
raised error records the status code and fills type, charge, message,
code, decline_code and param from the corresponding entries, each
defaulting to the empty string. -/
theorem claim_C4_amended :
    (∀ (method : String) (status : Nat) (body : Body),
      (∀ fields, body = Body.json (JValue.vobj fields) →
        ∀ ev, dlookup fields "error" = some ev → ev.pyTruthy = true → ev.isObjB = true) →
      ((∃ e msg, handle_response method status body
          = some (Except.error (ReqError.stripeErr e msg))) ↔ status ≠ 200)) ∧
    (∀ (method : String) (status : Nat) (fields efields : List (String × JValue)),
      status ≠ 200 →
      dlookup fields "error" = some (JValue.vobj efields) →
      efields ≠ [] →
      handle_response method status (Body.json (JValue.vobj fields))
        = some (Except.error (ReqError.stripeErr (filled_error status efields)
            (stripe_error_msg status (filled_error status efields)))) ∧
      (filled_error status efields).http_code = status ∧
      (filled_error status efields).type = some ((dlookup efields "type").getD (JValue.vstr "")) ∧
      (filled_error status efields).charge = some ((dlookup efields "charge").getD (JValue.vstr "")) ∧
      (filled_error status efields).message = some ((dlookup efields "message").getD (JValue.vstr "")) ∧
      (filled_error status efields).code = some ((dlookup efields "code").getD (JValue.vstr "")) ∧
      (filled_error status efields).decline_code
        = some ((dlookup efields "decline_code").getD (JValue.vstr "")) ∧
      (filled_error status efields).param
        = some ((dlookup efields "param").getD (JValue.vstr ""))) := by
  constructor
  · intro method status body hwb
    constructor
    · rintro ⟨e, msg, hmem⟩ h200
      subst h200
      exact handle_response_200_no_stripe method body e msg hmem
    · intro hne
      obtain ⟨e, he⟩ := mk_stripe_error_isSome status body hwb
      refine ⟨e, stripe_error_msg status e, ?_⟩
      unfold handle_response
      rw [if_pos hne, he]
      rfl
  · intro method status fields efields hne herr hnonempty
    have ht : (JValue.vobj efields).pyTruthy = true := by
      cases efields with
      | nil => exact absurd rfl hnonempty
      | cons kv t => rfl
    have hmk : mk_stripe_error status (Body.json (JValue.vobj fields))
        = some (filled_error status efields) := by
      simp [mk_stripe_error, herr, ht]
    refine ⟨?_, rfl, rfl, rfl, rfl, rfl, rfl, rfl⟩
    unfold handle_response
    rw [if_pos hne, hmk]
    rfl

/-- C4, witness at the spec's worked example: a 404 with body
`{"error": {"type": "invalid_request_error", "message": "msg",
"param": "source", "code": "missing"}}`. -/
theorem claim_C4_witness :
    ((404 : Nat) ≠ 200) ∧
    (∃ e msg, handle_response "post" 404 (Body.json (JValue.vobj [("error", JValue.vobj
        [("type", JValue.vstr "invalid_request_error"), ("message", JValue.vstr "msg"),
         ("param", JValue.vstr "source"), ("code", JValue.vstr "missing")])]))
      = some (Except.error (ReqError.stripeErr e msg))) ∧
    handle_response "post" 404 (Body.json (JValue.vobj [("error", JValue.vobj
        [("type", JValue.vstr "invalid_request_error"), ("message", JValue.vstr "msg"),
         ("param", JValue.vstr "source"), ("code", JValue.vstr "missing")])]))
      = some (Except.error (ReqError.stripeErr
          (filled_error 404 [("type", JValue.vstr "invalid_request_error"),
            ("message", JValue.vstr "msg"), ("param", JValue.vstr "source"),
            ("code", JValue.vstr "missing")])
          (stripe_error_msg 404 (filled_error 404 [("type", JValue.vstr "invalid_request_error"),
            ("message", JValue.vstr "msg"), ("param", JValue.vstr "source"),
            ("code", JValue.vstr "missing")])))) ∧
    (filled_error 404 [("type", JValue.vstr "invalid_request_error"),
        ("message", JValue.vstr "msg"), ("param", JValue.vstr "source"),
        ("code", JValue.vstr "missing")]).type = some (JValue.vstr "invalid_request_error") ∧
    (filled_error 404 [("type", JValue.vstr "invalid_request_error"),
        ("message", JValue.vstr "msg"), ("param", JValue.vstr "source"),
        ("code", JValue.vstr "missing")]).message = some (JValue.vstr "msg") ∧
    (filled_error 404 [("type", JValue.vstr "invalid_request_error"),
        ("message", JValue.vstr "msg"), ("param", JValue.vstr "source"),
        ("code", JValue.vstr "missing")]).code = some (JValue.vstr "missing") ∧
    (filled_error 404 [("type", JValue.vstr "invalid_request_error"),
        ("message", JValue.vstr "msg"), ("param", JValue.vstr "source"),
        ("code", JValue.vstr "missing")]).param = some (JValue.vstr "source") ∧
    (filled_error 404 [("type", JValue.vstr "invalid_request_error"),
        ("message", JValue.vstr "msg"), ("param", JValue.vstr "source"),
        ("code", JValue.vstr "missing")]).decline_code = some (JValue.vstr "") ∧
    (filled_error 404 [("type", JValue.vstr "invalid_request_error"),
        ("message", JValue.vstr "msg"), ("param", JValue.vstr "source"),
        ("code", JValue.vstr "missing")]).charge = some (JValue.vstr "") ∧
    (filled_error 404 [("type", JValue.vstr "invalid_request_error"),
        ("message", JValue.vstr "msg"), ("param", JValue.vstr "source"),
        ("code", JValue.vstr "missing")]).http_code = 404 := by
  have hiff := (claim_C4_amended.1 "post" 404 (Body.json (JValue.vobj [("error", JValue.vobj
      [("type", JValue.vstr "invalid_request_error"), ("message", JValue.vstr "msg"),
       ("param", JValue.vstr "source"), ("code", JValue.vstr "missing")])]))
    (by rintro fields hf ev hev htr
        cases hf
        cases hev
        rfl)).mpr (by decide)
  have hmain := claim_C4_amended.2 "post" 404
    [("error", JValue.vobj [("type", JValue.vstr "invalid_request_error"),
      ("message", JValue.vstr "msg"), ("param", JValue.vstr "source"),
      ("code", JValue.vstr "missing")])]
    [("type", JValue.vstr "invalid_request_error"), ("message", JValue.vstr "msg"),
     ("param", JValue.vstr "source"), ("code", JValue.vstr "missing")]
    (by decide) rfl (by simp)
  exact ⟨by decide, hiff, hmain.1, rfl, rfl, rfl, rfl, rfl, rfl, rfl⟩

/-- C5: a DELETE operation with a 200 mapping body returns no value and
raises nothing when the body's `deleted` field is `True`, and raises a
`DeletionError` whose message names the body's `id` entry (rendered
`None` when absent) when `deleted` is `False` or missing. -/
theorem claim_C5 (method : String) (fields : List (String × JValue))
    (hdel : pyUpper method = "DELETE") :
    (dlookup fields "deleted" = some (JValue.vbool true) →
      handle_response method 200 (Body.json (JValue.vobj fields))
        = some (Except.ok none)) ∧
    (dlookup fields "deleted" = some (JValue.vbool false) ∨ dlookup fields "deleted" = none →
      handle_response method 200 (Body.json (JValue.vobj fields))
        = some (Except.error (ReqError.deletionErr ("Failed to delete " ++ idStr fields)))) := by
  have h200 : handle_response method 200 (Body.json (JValue.vobj fields))
      = handle_delete (Body.json (JValue.vobj fields)) := by
    unfold handle_response
    rw [if_neg (by omega : ¬ (200 : Nat) ≠ 200), if_pos hdel]
  constructor
  · intro hd
    rw [h200]
    simp [handle_delete, hd, JValue.pyTruthy]
  · intro hd
    rw [h200]
    rcases hd with hd | hd <;> simp [handle_delete, hd, JValue.pyTruthy]

/-- C5, witness at the spec's example bodies `{"deleted": true, "id":
"cus_X"}` and `{"deleted": false, "id": "cus_X"}`. -/
theorem claim_C5_witness :
    pyUpper "delete" = "DELETE" ∧
    handle_response "delete" 200 (Body.json (JValue.vobj
      [("deleted", JValue.vbool true), ("id", JValue.vstr "cus_X")]))
      = some (Except.ok none) ∧
    handle_response "delete" 200 (Body.json (JValue.vobj
      [("deleted", JValue.vbool false), ("id", JValue.vstr "cus_X")]))
      = some (Except.error (ReqError.deletionErr "Failed to delete cus_X")) := by
  have h1 := claim_C5 "delete" [("deleted", JValue.vbool true), ("id", JValue.vstr "cus_X")]
    (by decide)
  have h2 := claim_C5 "delete" [("deleted", JValue.vbool false), ("id", JValue.vstr "cus_X")]
    (by decide)
  refine ⟨by decide, h1.1 rfl, ?_⟩
  rw [h2.2 (Or.inl rfl)]
  rfl

/-- C6, counterexample.  The claim says every 200 body that is not a
mapping containing an `object` field yields a `ParseError`.  But the
membership test `'object' not in body` is Python list membership when the
body is a list: the 200 body `["object"]` is not a mapping, yet it passes
the check and is returned (normalized) with no `ParseError`. -/
theorem claim_C6_counterexample :
    handle_response "get" 200 (Body.json (JValue.varr [JValue.vstr "object"]))
      = some (Except.ok (some (JValue.varr [JValue.vstr "object"]))) ∧
    ∀ msg, handle_response "get" 200 (Body.json (JValue.varr [JValue.vstr "object"]))
      ≠ some (Except.error (ReqError.parseErr msg)) := by
  have hne : (pyUpper "get" = "DELETE") ↔ False := iff_false_intro (by decide)
  have hconv : convert_json_response (JValue.varr [JValue.vstr "object"])
      = Except.ok (JValue.varr [JValue.vstr "object"]) := by
    simp [convert_json_response, convList]
  have h0 : handle_response "get" 200 (Body.json (JValue.varr [JValue.vstr "object"]))
      = some (Except.ok (some (JValue.varr [JValue.vstr "object"]))) := by
    unfold handle_response handle_ok
    rw [if_neg (by omega : ¬ (200 : Nat) ≠ 200), if_neg (by decide)]
    simp only [show pyContains (Body.json (JValue.varr [JValue.vstr "object"])) "object"
      = some true from rfl, hconv]
  refine ⟨h0, fun msg h => ?_⟩
  rw [h0] at h
  exact Except.noConfusion (Option.some.inj h)

/-- C6 (amended): for every non-DELETE operation whose 200 response body is
a *mapping*: if the mapping lacks an `object` field the operation raises a
`ParseError` whose message cites the offending body, and if the `object`
field is present and normalization succeeds the operation returns the
normalized body, raising no typed error.  (Non-mapping bodies go through
Python's `in` operator instead — see the counterexample — and a body whose
normalization raises escapes as that exception.) -/
theorem claim_C6_amended :
    (∀ (method : String) (fields : List (String × JValue)),
      pyUpper method ≠ "DELETE" →
      dlookup fields "object" = none →
      handle_response method 200 (Body.json (JValue.vobj fields))
        = some (Except.error (ReqError.parseErr
            ("Stripe response missing \"object\": " ++ pyStr (JValue.vobj fields))))) ∧
    (∀ (method : String) (fields : List (String × JValue)) (w u : JValue),
      pyUpper method ≠ "DELETE" →
      dlookup fields "object" = some w →
      convert_json_response (JValue.vobj fields) = Except.ok u →
      handle_response method 200 (Body.json (JValue.vobj fields))
        = some (Except.ok (some u))) := by
  constructor
  · intro method fields hdel hobj
    unfold handle_response handle_ok
    rw [if_neg (by omega : ¬ (200 : Nat) ≠ 200), if_neg hdel]
    simp only [pyContains, hasKey, hobj, Option.isSome_none]
    rfl
  · intro method fields w u hdel hobj hconv
    unfold handle_response handle_ok
    rw [if_neg (by omega : ¬ (200 : Nat) ≠ 200), if_neg hdel]
    simp only [pyContains, hasKey, hobj, Option.isSome_some, hconv]

/-- C6, witness: the spec's example body `{"amount": 103}` (lacking
`object`) yields the parse error citing the body, and a body
`{"object": "charge"}` is returned normalized. -/
theorem claim_C6_witness :
    handle_response "get" 200 (Body.json (JValue.vobj [("amount", JValue.vint 103)]))
      = some (Except.error (ReqError.parseErr
          ("Stripe response missing \"object\": "
            ++ pyStr (JValue.vobj [("amount", JValue.vint 103)])))) ∧
    pyStr (JValue.vobj [("amount", JValue.vint 103)]) = "\x7b'amount': 103\x7d" ∧
    handle_response "get" 200 (Body.json (JValue.vobj [("object", JValue.vstr "charge")]))
      = some (Except.ok (some (JValue.vobj [("object", JValue.vstr "charge")]))) := by
  refine ⟨claim_C6_amended.1 "get" _ (by decide) rfl, ?_,
    claim_C6_amended.2 "get" _ (JValue.vstr "charge") _ (by decide) rfl ?_⟩
  · have h1 : toString (103 : Int) = "103" := rfl
    simp [pyStr, pyRepr, pyReprFields, h1]
  · simp [convert_json_response, isListTag, dlookup]


/-! ## Unfolding lemmas for the list-envelope branch

The `data` lookups inside `convert_json_response`, `WFconv` and
`dataPresent` are dependent matches (the equation is needed for the
termination measure), so each branch is exposed once as a rewriting
lemma. -/

theorem conv_obj_notlist {fields : List (String × JValue)}
    (hlt : isListTag fields = false) :
    convert_json_response (JValue.vobj fields) = Except.ok (JValue.vobj fields) := by
  rw [convert_json_response, hlt]
  simp

theorem conv_obj_data_none {fields : List (String × JValue)}
    (hlt : isListTag fields = true) (hd : dlookup fields "data" = none) :
    convert_json_response (JValue.vobj fields) = Except.error PyErr.keyError := by
  rw [convert_json_response, hlt]
  simp only [if_true]
  split
  · rfl
  · rename_i ds heq
    rw [hd] at heq
    cases heq
  · rename_i inner heq
    rw [hd] at heq
    cases heq
  · rename_i st heq
    rw [hd] at heq
    cases heq
  · rename_i dv hnoarr hnoobj hnostr heq
    rw [hd] at heq
    cases heq

theorem conv_obj_data_arr {fields : List (String × JValue)} {ds : List JValue}
    (hlt : isListTag fields = true) (hd : dlookup fields "data" = some (JValue.varr ds)) :
    convert_json_response (JValue.vobj fields)
      = (match convList ds with
         | Except.error e => Except.error e
         | Except.ok ys => Except.ok (JValue.varr ys)) := by
  rw [convert_json_response, hlt]
  simp only [if_true]
  split
  · rename_i heq
    rw [hd] at heq
    cases heq
  · rename_i ds' heq
    rw [hd] at heq
    cases Option.some.inj heq
    rfl
  · rename_i inner heq
    rw [hd] at heq
    cases heq
  · rename_i st heq
    rw [hd] at heq
    cases heq
  · rename_i dv hnoarr hnoobj hnostr heq
    rw [hd] at heq
    cases Option.some.inj heq
    exact absurd rfl (hnoarr ds)

theorem conv_obj_data_obj {fields inner : List (String × JValue)}
    (hlt : isListTag fields = true) (hd : dlookup fields "data" = some (JValue.vobj inner)) :
    convert_json_response (JValue.vobj fields)
      = Except.ok (JValue.varr (inner.map fun kv => JValue.vstr kv.1)) := by
  rw [convert_json_response, hlt]
  simp only [if_true]
  split
  · rename_i heq
    rw [hd] at heq
    cases heq
  · rename_i ds' heq
    rw [hd] at heq
    cases heq
  · rename_i inner' heq
    rw [hd] at heq
    cases Option.some.inj heq
    rfl
  · rename_i st heq
    rw [hd] at heq
    cases heq
  · rename_i dv hnoarr hnoobj hnostr heq
    rw [hd] at heq
    cases Option.some.inj heq
    exact absurd rfl (hnoobj inner)

theorem conv_obj_data_str {fields : List (String × JValue)} {st : String}
    (hlt : isListTag fields = true) (hd : dlookup fields "data" = some (JValue.vstr st)) :
    convert_json_response (JValue.vobj fields)
      = Except.ok (JValue.varr (st.data.map fun c => JValue.vstr (String.mk [c]))) := by
  rw [convert_json_response, hlt]
  simp only [if_true]
  split
  · rename_i heq
    rw [hd] at heq
    cases heq
  · rename_i ds' heq
    rw [hd] at heq
    cases heq
  · rename_i inner' heq
    rw [hd] at heq
    cases heq
  · rename_i st' heq
    rw [hd] at heq
    cases Option.some.inj heq
    rfl
  · rename_i dv hnoarr hnoobj hnostr heq
    rw [hd] at heq
    cases Option.some.inj heq
    exact absurd rfl (hnostr st)

theorem conv_obj_data_scalar {fields : List (String × JValue)} {dv : JValue}
    (hlt : isListTag fields = true) (hd : dlookup fields "data" = some dv)
    (hna : dv.isArrB = false) (hno : dv.isObjB = false) (hns : dv.isStrB = false) :
    convert_json_response (JValue.vobj fields) = Except.error PyErr.typeError := by
  rw [convert_json_response, hlt]
  simp only [if_true]
  split
  · rename_i heq
    rw [hd] at heq
    cases heq
  · rename_i ds' heq
    rw [hd] at heq
    cases Option.some.inj heq
    simp [JValue.isArrB] at hna
  · rename_i inner' heq
    rw [hd] at heq
    cases Option.some.inj heq
    simp [JValue.isObjB] at hno
  · rename_i st' heq
    rw [hd] at heq
    cases Option.some.inj heq
    simp [JValue.isStrB] at hns
  · rfl

theorem WFconv_obj_notlist {fields : List (String × JValue)}
    (hlt : isListTag fields = false) : WFconv (JValue.vobj fields) = true := by
  rw [WFconv, hlt]
  simp

theorem WFconv_obj_data_arr {fields : List (String × JValue)} {ds : List JValue}
    (hlt : isListTag fields = true) (hd : dlookup fields "data" = some (JValue.varr ds)) :
    WFconv (JValue.vobj fields) = WFconvList ds := by
  rw [WFconv, hlt]
  simp only [if_true]
  split
  · rename_i ds' heq
    rw [hd] at heq
    cases Option.some.inj heq
    rfl
  · rename_i hnoarr
    exact absurd hd (hnoarr ds)

theorem WFconv_obj_data_none {fields : List (String × JValue)}
    (hlt : isListTag fields = true) (hd : dlookup fields "data" = none) :
    WFconv (JValue.vobj fields) = false := by
  rw [WFconv, hlt]
  simp only [if_true]
  split
  · rename_i ds' heq
    rw [hd] at heq
    cases heq
  · rfl

theorem WFconv_obj_data_notarr {fields : List (String × JValue)} {dv : JValue}
    (hlt : isListTag fields = true) (hd : dlookup fields "data" = some dv)
    (hna : dv.isArrB = false) : WFconv (JValue.vobj fields) = false := by
  rw [WFconv, hlt]
  simp only [if_true]
  split
  · rename_i ds' heq
    rw [hd] at heq
    cases Option.some.inj heq
    simp [JValue.isArrB] at hna
  · rfl

theorem dataPresent_obj_notlist {fields : List (String × JValue)}
    (hlt : isListTag fields = false) : dataPresent (JValue.vobj fields) = true := by
  rw [dataPresent, hlt]
  simp

theorem dataPresent_obj_data_none {fields : List (String × JValue)}
    (hlt : isListTag fields = true) (hd : dlookup fields "data" = none) :
    dataPresent (JValue.vobj fields) = false := by
  rw [dataPresent, hlt]
  simp only [if_true]
  split
  · rfl
  · rename_i ds' heq
    rw [hd] at heq
    cases heq
  · rename_i dv hnoarr heq
    rw [hd] at heq
    cases heq

theorem dataPresent_obj_data_arr {fields : List (String × JValue)} {ds : List JValue}
    (hlt : isListTag fields = true) (hd : dlookup fields "data" = some (JValue.varr ds)) :
    dataPresent (JValue.vobj fields) = dataPresentList ds := by
  rw [dataPresent, hlt]
  simp only [if_true]
  split
  · rename_i heq
    rw [hd] at heq
    cases heq
  · rename_i ds' heq
    rw [hd] at heq
    cases Option.some.inj heq
    rfl
  · rename_i dv hnoarr heq
    rw [hd] at heq
    cases Option.some.inj heq
    exact absurd rfl (hnoarr ds)

theorem dataPresent_obj_data_other {fields : List (String × JValue)} {dv : JValue}
    (hlt : isListTag fields = true) (hd : dlookup fields "data" = some dv)
    (hna : dv.isArrB = false) : dataPresent (JValue.vobj fields) = true := by
  rw [dataPresent, hlt]
  simp only [if_true]
  split
  · rename_i heq
    rw [hd] at heq
    cases heq
  · rename_i ds' heq
    rw [hd] at heq
    cases Option.some.inj heq
    simp [JValue.isArrB] at hna
  · rfl

/-! ## Claims about response normalization (C7, C8, C10) -/

/-- On well-formed values the code's normalization agrees with the
specification's case split and never raises. -/
theorem conv_normSpec_all : ∀ n : Nat,
    (∀ v : JValue, sizeOf v ≤ n → WFconv v = true →
      convert_json_response v = Except.ok (normSpec v)) ∧
    (∀ l : List JValue, sizeOf l ≤ n → WFconvList l = true →
      convList l = Except.ok (normSpecList l)) := by
  intro n
  induction n using Nat.strong_induction_on with
  | _ n ih =>
    constructor
    · intro v hsz hwf
      cases v with
      | vnull => simp [convert_json_response, normSpec]
      | vbool b => simp [convert_json_response, normSpec]
      | vint m => simp [convert_json_response, normSpec]
      | vstr s => simp [convert_json_response, normSpec]
      | varr xs =>
        have hlt : sizeOf xs < n := by
          simp at hsz
          omega
        have hwf' : WFconvList xs = true := by simpa [WFconv] using hwf
        have hcl := (ih (sizeOf xs) hlt).2 xs le_rfl hwf'
        simp [convert_json_response, normSpec, hcl]
      | vobj fields =>
        by_cases hlt : isListTag fields
        · rcases hd : dlookup fields "data" with _ | dv
          · rw [WFconv_obj_data_none hlt hd] at hwf
            cases hwf
          · cases dv with
            | varr ds =>
              have hwf' : WFconvList ds = true := by
                rwa [WFconv_obj_data_arr hlt hd] at hwf
              have hszds : sizeOf ds < n := by
                have h1 := dlookup_sizeOf_arr hd
                simp at h1 hsz
                omega
              have hcl := (ih (sizeOf ds) hszds).2 ds le_rfl hwf'
              have hde : dataElems fields = ds := by simp [dataElems, hd]
              rw [conv_obj_data_arr hlt hd, hcl, normSpec, if_pos hlt, hde]
            | vnull => rw [WFconv_obj_data_notarr hlt hd rfl] at hwf; cases hwf
            | vbool b => rw [WFconv_obj_data_notarr hlt hd rfl] at hwf; cases hwf
            | vint m => rw [WFconv_obj_data_notarr hlt hd rfl] at hwf; cases hwf
            | vstr s => rw [WFconv_obj_data_notarr hlt hd rfl] at hwf; cases hwf
            | vobj inner => rw [WFconv_obj_data_notarr hlt hd rfl] at hwf; cases hwf
        · rw [conv_obj_notlist (Bool.not_eq_true _ ▸ hlt : isListTag fields = false),
            normSpec, if_neg hlt]
    · intro l hsz hwf
      cases l with
      | nil => simp [convList, normSpecList]
      | cons x t =>
        have hx : sizeOf x < n := by
          simp at hsz
          omega
        have ht : sizeOf t < n := by
          simp at hsz
          omega
        rw [WFconvList, Bool.and_eq_true] at hwf
        have h1 := (ih (sizeOf x) hx).1 x le_rfl hwf.1
        have h2 := (ih (sizeOf t) ht).2 t le_rfl hwf.2
        simp [convList, normSpecList, h1, h2]

/-- C7, counterexample.  The claim's case split is asserted for every
structured value; a mapping tagged `object == 'list'` with no `data`
entry is a structured value on which `convert_json_response` raises
`KeyError` (the unguarded `resp['data']` lookup) and returns nothing. -/
theorem claim_C7_counterexample :
    convert_json_response (JValue.vobj [("object", JValue.vstr "list")])
      = Except.error PyErr.keyError ∧
    ∀ w, convert_json_response (JValue.vobj [("object", JValue.vstr "list")])
      ≠ Except.ok w := by
  have h0 : convert_json_response (JValue.vobj [("object", JValue.vstr "list")])
      = Except.error PyErr.keyError :=
    conv_obj_data_none rfl rfl
  exact ⟨h0, fun w h => Except.noConfusion (h0.symm.trans h)⟩

/-- C7 (amended): on every structured value in which each mapping tagged
`object == 'list'` (along the visited paths) carries a sequence-valued
`data` entry, `convert_json_response` follows exactly the claim's case
split: it returns the specification-side normalization `normSpec` —
sequences normalize elementwise, list envelopes are replaced by the
normalized elements of their `data` field with the other envelope fields
discarded, and every other value is returned unchanged. -/
theorem claim_C7_amended (v : JValue) (h : WFconv v = true) :
    convert_json_response v = Except.ok (normSpec v) :=
  (conv_normSpec_all (sizeOf v)).1 v le_rfl h

/-- C7, witness: the envelope `{object: "list", data: [{object: "charge"},
"y"]}` normalizes to `[{object: "charge"}, "y"]`, and a list envelope
nested inside a sequence is unwrapped independently. -/
theorem claim_C7_witness :
    WFconv (JValue.vobj [("object", JValue.vstr "list"),
      ("data", JValue.varr [JValue.vobj [("object", JValue.vstr "charge")], JValue.vstr "y"])])
      = true ∧
    convert_json_response (JValue.vobj [("object", JValue.vstr "list"),
      ("data", JValue.varr [JValue.vobj [("object", JValue.vstr "charge")], JValue.vstr "y"])])
      = Except.ok (normSpec (JValue.vobj [("object", JValue.vstr "list"),
        ("data", JValue.varr [JValue.vobj [("object", JValue.vstr "charge")], JValue.vstr "y"])])) ∧
    normSpec (JValue.vobj [("object", JValue.vstr "list"),
      ("data", JValue.varr [JValue.vobj [("object", JValue.vstr "charge")], JValue.vstr "y"])])
      = JValue.varr [JValue.vobj [("object", JValue.vstr "charge")], JValue.vstr "y"] ∧
    convert_json_response (JValue.varr [JValue.vobj [("object", JValue.vstr "list"),
      ("data", JValue.varr [JValue.vint 1])], JValue.vint 2])
      = Except.ok (JValue.varr [JValue.varr [JValue.vint 1], JValue.vint 2]) := by
  have hwf : WFconv (JValue.vobj [("object", JValue.vstr "list"),
      ("data", JValue.varr [JValue.vobj [("object", JValue.vstr "charge")], JValue.vstr "y"])])
      = true := by
    simp [WFconv, WFconvList, isListTag, dlookup]
  refine ⟨hwf, claim_C7_amended _ hwf, ?_, ?_⟩
  · simp [normSpec, normSpecList, isListTag, dlookup, dataElems]
  · simp [convert_json_response, convList, isListTag, dlookup]

/-- A list of strings normalizes to itself. -/
theorem convList_strs : ∀ l : List JValue, (∀ x ∈ l, ∃ s, x = JValue.vstr s) →
    convList l = Except.ok l := by
  intro l h
  induction l with
  | nil => simp [convList]
  | cons x t ih =>
    obtain ⟨s, rfl⟩ := h x (List.mem_cons_self _ _)
    have ht := ih fun x hx => h x (List.mem_cons_of_mem _ hx)
    simp [convList, convert_json_response, ht]

theorem isListTag_false_of {fields : List (String × JValue)} {w : JValue}
    (h : dlookup fields "object" = some w) (hw : w ≠ JValue.vstr "list") :
    isListTag fields = false := by
  unfold isListTag
  rw [h]
  cases w with
  | vstr s =>
    have hs : s ≠ "list" := fun he => hw (by rw [he])
    simp [hs]
  | vnull => rfl
  | vbool b => rfl
  | vint n => rfl
  | varr xs => rfl
  | vobj fs => rfl

/-- Normalization output is a fixed point of normalization. -/
theorem conv_idem_all : ∀ n : Nat,
    (∀ (v w : JValue), sizeOf v ≤ n → convert_json_response v = Except.ok w →
      convert_json_response w = Except.ok w) ∧
    (∀ l m : List JValue, sizeOf l ≤ n → convList l = Except.ok m →
      convList m = Except.ok m) := by
  intro n
  induction n using Nat.strong_induction_on with
  | _ n ih =>
    constructor
    · intro v w hsz hcv
      cases v with
      | vnull =>
        simp [convert_json_response] at hcv
        subst hcv
        simp [convert_json_response]
      | vbool b =>
        simp [convert_json_response] at hcv
        subst hcv
        simp [convert_json_response]
      | vint m' =>
        simp [convert_json_response] at hcv
        subst hcv
        simp [convert_json_response]
      | vstr s =>
        simp [convert_json_response] at hcv
        subst hcv
        simp [convert_json_response]
      | varr xs =>
        rcases hcl : convList xs with e | ys
        · rw [convert_json_response, hcl] at hcv
          cases hcv
        · rw [convert_json_response, hcl] at hcv
          cases Except.ok.inj hcv
          have hys := (ih (sizeOf xs) (by simp at hsz; omega)).2 xs ys le_rfl hcl
          rw [convert_json_response, hys]
      | vobj fields =>
        by_cases hlt : isListTag fields
        · rcases hd : dlookup fields "data" with _ | dv
          · rw [conv_obj_data_none hlt hd] at hcv
            cases hcv
          · cases dv with
            | varr ds =>
              rcases hcl : convList ds with e | ys
              · rw [conv_obj_data_arr hlt hd, hcl] at hcv
                cases hcv
              · rw [conv_obj_data_arr hlt hd, hcl] at hcv
                cases Except.ok.inj hcv
                have hszds : sizeOf ds < n := by
                  have h1 := dlookup_sizeOf_arr hd
                  simp at h1 hsz
                  omega
                have hys := (ih (sizeOf ds) hszds).2 ds ys le_rfl hcl
                rw [convert_json_response, hys]
            | vobj inner =>
              rw [conv_obj_data_obj hlt hd] at hcv
              cases Except.ok.inj hcv
              have hstrs : convList (inner.map fun kv => JValue.vstr kv.1)
                  = Except.ok (inner.map fun kv => JValue.vstr kv.1) := by
                refine convList_strs _ fun x hx => ?_
                obtain ⟨kv, _, rfl⟩ := List.mem_map.mp hx
                exact ⟨kv.1, rfl⟩
              rw [convert_json_response, hstrs]
            | vstr st =>
              rw [conv_obj_data_str hlt hd] at hcv
              cases Except.ok.inj hcv
              have hstrs : convList (st.data.map fun c => JValue.vstr (String.mk [c]))
                  = Except.ok (st.data.map fun c => JValue.vstr (String.mk [c])) := by
                refine convList_strs _ fun x hx => ?_
                obtain ⟨c, _, rfl⟩ := List.mem_map.mp hx
                exact ⟨String.mk [c], rfl⟩
              rw [convert_json_response, hstrs]
            | vnull =>
              rw [conv_obj_data_scalar hlt hd rfl rfl rfl] at hcv
              cases hcv
            | vbool b =>
              rw [conv_obj_data_scalar hlt hd rfl rfl rfl] at hcv
              cases hcv
            | vint m' =>
              rw [conv_obj_data_scalar hlt hd rfl rfl rfl] at hcv
              cases hcv
        · have hlt' : isListTag fields = false := by
            cases hb : isListTag fields
            · rfl
            · exact absurd hb hlt
          rw [conv_obj_notlist hlt'] at hcv
          cases Except.ok.inj hcv
          rw [conv_obj_notlist hlt']
    · intro l m hsz hcl
      cases l with
      | nil =>
        simp [convList] at hcl
        subst hcl
        simp [convList]
      | cons x t =>
        rcases hx : convert_json_response x with e | y
        · rw [convList, hx] at hcl
          cases hcl
        · rcases ht : convList t with e | yt
          · rw [convList, hx, ht] at hcl
            cases hcl
          · rw [convList, hx, ht] at hcl
            cases Except.ok.inj hcl
            have hy := (ih (sizeOf x) (by simp at hsz; omega)).1 x y le_rfl hx
            have hyt := (ih (sizeOf t) (by simp at hsz; omega)).2 t yt le_rfl ht
            rw [convList, hy, hyt]

/-- C8: response normalization is idempotent — a mapping whose `object`
field is present and differs from `"list"` is returned unchanged, and
composing `convert_json_response` with itself (through the exception
monad) changes nothing. -/
theorem claim_C8 :
    (∀ (fields : List (String × JValue)) (w : JValue),
      dlookup fields "object" = some w → w ≠ JValue.vstr "list" →
      convert_json_response (JValue.vobj fields) = Except.ok (JValue.vobj fields)) ∧
    (∀ v : JValue, (convert_json_response v).bind convert_json_response
      = convert_json_response v) := by
  constructor
  · intro fields w h hw
    exact conv_obj_notlist (isListTag_false_of h hw)
  · intro v
    rcases hcv : convert_json_response v with e | w
    · rfl
    · have hw := (conv_idem_all (sizeOf v)).1 v w le_rfl hcv
      show convert_json_response w = Except.ok w
      exact hw

/-- C8, witness: a charge object is normalized to itself, and normalizing
an already-normalized list envelope changes nothing. -/
theorem claim_C8_witness :
    convert_json_response (JValue.vobj [("object", JValue.vstr "charge")])
      = Except.ok (JValue.vobj [("object", JValue.vstr "charge")]) ∧
    (convert_json_response (JValue.vobj [("object", JValue.vstr "list"),
        ("data", JValue.varr [JValue.vint 3])])).bind convert_json_response
      = convert_json_response (JValue.vobj [("object", JValue.vstr "list"),
        ("data", JValue.varr [JValue.vint 3])]) :=
  ⟨claim_C8.1 _ (JValue.vstr "charge") rfl
    (fun h => absurd (JValue.vstr.inj h) (by decide)),
   claim_C8.2 _⟩

/-- Along every path where the `data` lookups find their key,
`convert_json_response` never raises `KeyError`. -/
theorem conv_keyError_all : ∀ n : Nat,
    (∀ v : JValue, sizeOf v ≤ n → dataPresent v = true →
      convert_json_response v ≠ Except.error PyErr.keyError) ∧
    (∀ l : List JValue, sizeOf l ≤ n → dataPresentList l = true →
      convList l ≠ Except.error PyErr.keyError) := by
  intro n
  induction n using Nat.strong_induction_on with
  | _ n ih =>
    constructor
    · intro v hsz hdp hcontra
      cases v with
      | vnull => simp [convert_json_response] at hcontra
      | vbool b => simp [convert_json_response] at hcontra
      | vint m => simp [convert_json_response] at hcontra
      | vstr s => simp [convert_json_response] at hcontra
      | varr xs =>
        have hdp' : dataPresentList xs = true := by simpa [dataPresent] using hdp
        rcases hcl : convList xs with e | ys
        · rw [convert_json_response, hcl] at hcontra
          cases Except.error.inj hcontra
          exact (ih (sizeOf xs) (by simp at hsz; omega)).2 xs le_rfl hdp' hcl
        · rw [convert_json_response, hcl] at hcontra
          cases hcontra
      | vobj fields =>
        by_cases hlt : isListTag fields
        · rcases hd : dlookup fields "data" with _ | dv
          · rw [dataPresent_obj_data_none hlt hd] at hdp
            cases hdp
          · cases dv with
            | varr ds =>
              have hdp' : dataPresentList ds = true := by
                rwa [dataPresent_obj_data_arr hlt hd] at hdp
              rcases hcl : convList ds with e | ys
              · rw [conv_obj_data_arr hlt hd, hcl] at hcontra
                cases Except.error.inj hcontra
                have hszds : sizeOf ds < n := by
                  have h1 := dlookup_sizeOf_arr hd
                  simp at h1 hsz
                  omega
                exact (ih (sizeOf ds) hszds).2 ds le_rfl hdp' hcl
              · rw [conv_obj_data_arr hlt hd, hcl] at hcontra
                cases hcontra
            | vobj inner =>
              rw [conv_obj_data_obj hlt hd] at hcontra
              cases hcontra
            | vstr st =>
              rw [conv_obj_data_str hlt hd] at hcontra
              cases hcontra
            | vnull =>
              rw [conv_obj_data_scalar hlt hd rfl rfl rfl] at hcontra
              cases Except.error.inj hcontra
            | vbool b =>
              rw [conv_obj_data_scalar hlt hd rfl rfl rfl] at hcontra
              cases Except.error.inj hcontra
            | vint m' =>
              rw [conv_obj_data_scalar hlt hd rfl rfl rfl] at hcontra
              cases Except.error.inj hcontra
        · have hlt' : isListTag fields = false := by
            cases hb : isListTag fields
            · rfl
            · exact absurd hb hlt
          rw [conv_obj_notlist hlt'] at hcontra
          cases hcontra
    · intro l hsz hdp hcontra
      cases l with
      | nil => simp [convList] at hcontra
      | cons x t =>
        rw [dataPresentList, Bool.and_eq_true] at hdp
        rcases hx : convert_json_response x with e | y
        · rw [convList, hx] at hcontra
          cases Except.error.inj hcontra
          exact (ih (sizeOf x) (by simp at hsz; omega)).1 x le_rfl hdp.1 hx
        · rcases ht : convList t with e | yt
          · rw [convList, hx, ht] at hcontra
            cases Except.error.inj hcontra
            exact (ih (sizeOf t) (by simp at hsz; omega)).2 t le_rfl hdp.2 ht
          · rw [convList, hx, ht] at hcontra
            cases hcontra

/-- C10: `convert_json_response` is total only under the precondition that
list-tagged mappings carry a `data` entry: on `{'object': 'list'}` the
unguarded `resp['data']` lookup raises `KeyError` (the error branch is
reachable), while on any value whose list-tagged mappings all carry a
`data` entry the lookup never fails. -/
theorem claim_C10 :
    convert_json_response (JValue.vobj [("object", JValue.vstr "list")])
      = Except.error PyErr.keyError ∧
    (∀ v : JValue, dataPresent v = true →
      convert_json_response v ≠ Except.error PyErr.keyError) :=
  ⟨conv_obj_data_none rfl rfl,
   fun v h => (conv_keyError_all (sizeOf v)).1 v le_rfl h⟩

/-- C10, witness: a well-formed list envelope satisfies the precondition
and normalizes without a `KeyError`. -/
theorem claim_C10_witness :
    dataPresent (JValue.vobj [("object", JValue.vstr "list"),
      ("data", JValue.varr [JValue.vint 1])]) = true ∧
    convert_json_response (JValue.vobj [("object", JValue.vstr "list"),
      ("data", JValue.varr [JValue.vint 1])]) ≠ Except.error PyErr.keyError := by
  have hdp : dataPresent (JValue.vobj [("object", JValue.vstr "list"),
      ("data", JValue.varr [JValue.vint 1])]) = true := by
    simp [dataPresent, dataPresentList, isListTag, dlookup]
  exact ⟨hdp, claim_C10.2 _ hdp⟩
